import Mathlib

/-!
# sebak: transactions, externalization and the key/value store

A shallow embedding of `lib/transaction.go`, `lib/storage/leveldb.go`,
`lib/error/errors.go`, `lib/network/base.go` and the message loop of
`lib/node_runner.go`.  Go values that are mutated through a pointer are
passed and returned explicitly; a Go `error` result is an `Option Err`
(`none` is `nil`); a Go panic is a separate outcome.
-/

namespace Sebak

/-! ## Errors (`lib/error/errors.go`) -/

/-- A Go `error` value: either a coded `sebakerror.Error` made by `NewError`,
or a plain error made by `fmt.Errorf` / `errors.New` / an external library. -/
inductive Err where
  | coded (code : Nat) (message : String)
  | plain (message : String)
  deriving DecidableEq, Repr

def NewError (code : Nat) (message : String) : Err := Err.coded code message

def ErrorBlockAlreadyExists : Err := NewError 100 "already exists in block"
def ErrorHashDoesNotMatch : Err := NewError 101 "`Hash` does not match"
def ErrorSignatureVerificationFailed : Err := NewError 102 "signature verification failed"
def ErrorBadPublicAddress : Err := NewError 103 "failed to parse public address"
def ErrorInvalidFee : Err := NewError 104 "invalid fee"
def ErrorInvalidOperation : Err := NewError 105 "invalid operation"
def ErrorNewButKnownMessage : Err := NewError 106 "received new, but known message"
def ErrorInvalidState : Err := NewError 107 "found invalid state"
def ErrorInvalidVotingThresholdPolicy : Err := NewError 108 "invalid `VotingThresholdPolicy`"
def ErrorBallotEmptyMessage : Err :=
  NewError 109 "init state ballot does not have `Message`"
def ErrorInvalidHash : Err := NewError 110 "invalid `Hash`"
def ErrorInvalidMessage : Err := NewError 111 "invalid `Message`"
def ErrorBallotHasMessage : Err :=
  NewError 112 "none-init state ballot must not have `Message`"
def ErrorVotingResultAlreadyExists : Err := NewError 113 "`VotingResult` already exists"
def ErrorVotingResultNotFound : Err := NewError 114 "`VotingResult` not found"
def ErrorVotingResultFailedToSetState : Err :=
  NewError 115 "failed to set the new state to `VotingResult`"
def ErrorVotingResultNotInBox : Err := NewError 116 "ballot is not in here"
def ErrorBallotNoVoting : Err := NewError 118 "ballot has no `Voting`"
def ErrorBallotNoNodeKey : Err := NewError 119 "ballot has no `NodeKey`"
def ErrorVotingThresholdInvalidValidators : Err := NewError 120 "invalid validators"
def ErrorBallotHasInvalidState : Err := NewError 121 "ballot has invalid state"
def ErrorVotingResultFailedToClose : Err := NewError 122 "failed to close `VotingResult`"
def ErrorTransactionEmptyOperations : Err := NewError 123 "operations needs in transaction"
def ErrorAlreadySaved : Err := NewError 124 "already saved"
def ErrorDuplicatedOperation : Err := NewError 125 "duplicated operations in transaction"
def ErrorUnknownOperationType : Err := NewError 126 "unknown operation type"
def ErrorTypeOperationBodyNotMatched : Err :=
  NewError 127 "operation type and it's type does not match"
def ErrorBlockAccountDoesNotExists : Err := NewError 128 "account does not exists in block"
def ErrorBlockAccountAlreadyExists : Err := NewError 129 "account already exists in block"
def ErrorAccountBalanceUnderZero : Err := NewError 130 "account balance will be under zero"
def ErrorMaximumBalanceReached : Err :=
  NewError 131 "monetary amount would be greater than the total supply of coins"
def ErrorStorageRecordDoesNotExist : Err := NewError 132 "record does not exist in storage"
def ErrorTransactionInvalidCheckpoint : Err := NewError 133 "invalid checkpoint found"
def ErrorBlockTransactionDoesNotExists : Err :=
  NewError 134 "transaction does not exists in block"
def ErrorBlockOperationDoesNotExists : Err := NewError 135 "operation does not exists in block"

/-- The numeric code of a coded error, if it has one. -/
def Err.Code : Err → Option Nat
  | Err.coded c _ => some c
  | Err.plain _ => none

/-! ## The storage engine

`leveldb.DB` is an external library.  Its contents are modelled as a list of
key/value entries kept in ascending key order; the engine calls used by
`leveldb.go` (`Has`, `Get`, `Put`) are total and report no I/O error. -/

/-- Contents of a `leveldb.DB`: entries in ascending key order. -/
abbrev DB (β : Type) := List (String × β)

/-- Engine call `DB.Get`: the value under `k`, if any. -/
def DB.Get {β : Type} : DB β → String → Option β
  | [], _ => none
  | (k', v') :: rest, k => if k = k' then some v' else DB.Get rest k

/-- Engine call `DB.Has`, with the (always nil) I/O error it returns. -/
def DB.Has {β : Type} (db : DB β) (k : String) : Bool × Option Err :=
  ((DB.Get db k).isSome, none)

/-- Lexicographic order on byte strings. -/
def bytesLt : List Nat → List Nat → Bool
  | _, [] => false
  | [], _ :: _ => true
  | a :: as, b :: bs => a < b || (a == b && bytesLt as bs)

/-- The engine orders keys bytewise (its default comparer); a key is compared
through the code points of its characters, which order as its UTF-8 bytes do. -/
def keyLt (a b : String) : Bool :=
  bytesLt (a.data.map Char.toNat) (b.data.map Char.toNat)

/-- Engine call `DB.Put`: insert or overwrite, keeping key order. -/
def DB.Put {β : Type} : DB β → String → β → DB β
  | [], k, v => [(k, v)]
  | (k', v') :: rest, k, v =>
    if keyLt k k' then (k, v) :: (k', v') :: rest
    else if k = k' then (k, v) :: rest
    else (k', v') :: DB.Put rest k v

/-! ## `lib/storage/leveldb.go` -/

/-- A Go `interface{}` value handed to the store, seen through the two ways
`leveldb.go` encodes it: `Serialize` is `some` exactly when the value
implements `Serializable` (the type assertion succeeds) and holds the result
of its `Serialize()`; `EncodeJSONValue` is the result of
`util.EncodeJSONValue(v)`. -/
structure Value (β : Type) where
  Serialize : Option (Except Err β)
  EncodeJSONValue : Except Err β

structure LevelDBBackend (β : Type) where
  DB : DB β
  deriving DecidableEq, Repr

def LevelDBBackend.Has {β : Type} (st : LevelDBBackend β) (k : String) : Bool × Option Err :=
  DB.Has st.DB k

def LevelDBBackend.GetRaw {β : Type} (st : LevelDBBackend β) (k : String) : Except Err β :=
  let (found, err) := st.Has k
  if !found || err.isSome then
    if !found then
      Except.error (Err.plain ("key, '" ++ k ++ "' does not exists"))
    else
      match err with
      | some e => Except.error e
      | none => Except.error (Err.plain "")
  else
    match DB.Get st.DB k with
    | some b => Except.ok b
    | none => Except.error (Err.plain "leveldb: not found")

/-- The encoding `New` computes for its argument. -/
def Value.encoded {β : Type} (v : Value β) : Except Err β :=
  match v.Serialize with
  | some r => r
  | none => v.EncodeJSONValue

def LevelDBBackend.New {β : Type} (st : LevelDBBackend β) (k : String) (v : Value β) :
    Option Err × LevelDBBackend β :=
  match v.encoded with
  | Except.error e => (some e, st)
  | Except.ok encoded =>
    let (found, err) := st.Has k
    if found || err.isSome then
      if found then (some (Err.plain ("key, '" ++ k ++ "' already exists")), st)
      else (err, st)
    else
      (none, { st with DB := DB.Put st.DB k encoded })

def LevelDBBackend.Set {β : Type} (st : LevelDBBackend β) (k : String) (v : Value β) :
    Option Err × LevelDBBackend β :=
  match v.EncodeJSONValue with
  | Except.error e => (some e, st)
  | Except.ok encoded =>
    let (found, err) := st.Has k
    if !found || err.isSome then
      if !found then (some (Err.plain ("key, '" ++ k ++ "' does not exists")), st)
      else (err, st)
    else
      (none, { st with DB := DB.Put st.DB k encoded })

/-- A value that implements `Serializable` and serializes to `b`. -/
def serializableValue (b : String) : Value String :=
  { Serialize := some (Except.ok b), EncodeJSONValue := Except.ok b }

/-! ## Amounts, operations and transactions

The `sebakcommon` package (amounts, checkpoints, object hashing), the
operation types, the ballot and the `block` package are not part of the
embedded sources.  Constants and pure external functions are collected in
`Env`; the remaining collaborators are modelled from the specification and
marked as such. -/

/-! A monetary amount (`sebakcommon.Amount`, an unsigned 64-bit integer) is a
`Nat`; the checked arithmetic below never lets a result pass the maximum
supply. -/

/-- A Go byte slice. -/
abbrev Bytes := List UInt8

/-- The Go conversion `[]byte(s)`: the UTF-8 bytes of a string. -/
def stringBytes (s : String) : Bytes := s.data.flatMap String.utf8EncodeChar

/-- Modelled from the spec: the payment operation body,
`Payment { target: Address, amount: Amount }` (the type is used by
`operation_test.go` but declared outside the embedded sources). -/
structure OperationBodyPayment where
  Target : String
  Amount : Nat
  deriving DecidableEq, Repr

/-- Modelled from the spec: the create-account operation body,
`CreateAccount { target: Address, amount: Amount }`. -/
structure OperationBodyCreateAccount where
  Target : String
  Amount : Nat
  deriving DecidableEq, Repr

/-- Modelled from the spec: the `OperationBody` interface with its two
implementations in scope. -/
inductive OperationBody where
  | payment (b : OperationBodyPayment)
  | createAccount (b : OperationBodyCreateAccount)
  deriving DecidableEq, Repr

def OperationBody.GetAmount : OperationBody → Nat
  | OperationBody.payment b => b.Amount
  | OperationBody.createAccount b => b.Amount

def OperationBody.TargetAddress : OperationBody → String
  | OperationBody.payment b => b.Target
  | OperationBody.createAccount b => b.Target

/-- Modelled from the spec: the operation header carries the operation type
(a string in the wire format; the Go field is named `Type`). -/
structure OperationHeader where
  OpType : String
  deriving DecidableEq, Repr

/-- Modelled from the spec: an operation is `{ type, body }`. -/
structure Operation where
  H : OperationHeader
  B : OperationBody
  deriving DecidableEq, Repr

structure TransactionHeader where
  Version : String
  Created : String
  Hash : String
  Signature : String
  deriving DecidableEq, Repr

structure TransactionBody where
  Source : String
  Fee : Nat
  Checkpoint : String
  Operations : List Operation
  deriving DecidableEq, Repr

structure Transaction where
  T : String
  H : TransactionHeader
  B : TransactionBody
  deriving DecidableEq, Repr

/-- Constants and pure external functions the transaction code uses but the
embedded sources do not define: the maximum supply and base fee constants,
the object hash, base58 and the checkpoint codec of `sebakcommon`. -/
structure Env where
  MaximumBalance : Nat
  BaseFee : Nat
  MustMakeObjectHash : TransactionBody → Bytes
  base58Encode : Bytes → String
  ParseCheckpoint : String → Except Err (String × String)
  MakeCheckpoint : String → String → String

/-- Modelled from the spec: `Amount.Add` is checked and fails with
max-balance-reached when the sum passes the maximum-supply constant, which
the caller supplies. -/
def Amount.Add (MaximumBalance : Nat) (a added : Nat) : Except Err Nat :=
  if a + added > MaximumBalance then Except.error ErrorMaximumBalanceReached
  else Except.ok (a + added)

/-- Modelled from the spec: `Amount.Mult`, the checked product of an amount
and a count. -/
def Amount.Mult (MaximumBalance : Nat) (a : Nat) (n : Nat) : Except Err Nat :=
  if a * n > MaximumBalance then Except.error ErrorMaximumBalanceReached
  else Except.ok (a * n)

/-- Modelled from the spec: `MustAdd` is the infallible form of `Add`; it
panics (here `none`) where `Add` fails. -/
def Amount.MustAdd (MaximumBalance : Nat) (a added : Nat) : Option Nat :=
  match Amount.Add MaximumBalance a added with
  | Except.ok v => some v
  | Except.error _ => none

/-- Modelled from the spec: `MustMult` is the infallible form of `Mult`; it
panics (here `none`) where `Mult` fails. -/
def Amount.MustMult (MaximumBalance : Nat) (a : Nat) (n : Nat) : Option Nat :=
  match Amount.Mult MaximumBalance a n with
  | Except.ok v => some v
  | Except.error _ => none

/-- Split a character list at its first dash. -/
def splitAtDash : List Char → Option (List Char × List Char)
  | [] => none
  | c :: cs =>
    if c = '-' then some ([], cs)
    else match splitAtDash cs with
      | some (a, b) => some (c :: a, b)
      | none => none

/-- Modelled from the spec: a checkpoint is the pair `(subtracted, added)`
serialized as `"<sub>-<add>"`; parsing splits at the first dash and fails
when there is none. -/
def ParseCheckpoint (a : String) : Except Err (String × String) :=
  match splitAtDash a.data with
  | some (s, t) => Except.ok (String.mk s, String.mk t)
  | none => Except.error (Err.plain "invalid checkpoint")

/-- Modelled from the spec: the serialization `"<sub>-<add>"` of a
checkpoint pair. -/
def MakeCheckpoint (subtracted added : String) : String :=
  subtracted ++ "-" ++ added

def TransactionBody.MakeHash (env : Env) (tb : TransactionBody) : Bytes :=
  env.MustMakeObjectHash tb

def TransactionBody.MakeHashString (env : Env) (tb : TransactionBody) : String :=
  env.base58Encode (tb.MakeHash env)

/-- The zero value of `Transaction`, which `NewTransaction` returns next to
an error. -/
def Transaction.zero : Transaction :=
  { T := "",
    H := { Version := "", Created := "", Hash := "", Signature := "" },
    B := { Source := "", Fee := 0, Checkpoint := "", Operations := [] } }

/-- The constructor `NewTransaction`; `now` is the value of `sebakcommon.NowISO8601()`. -/
def NewTransaction (env : Env) (now : String) (source checkpoint : String)
    (ops : List Operation) : Transaction × Option Err :=
  if ops.length < 1 then
    (Transaction.zero, some ErrorTransactionEmptyOperations)
  else
    let txBody : TransactionBody :=
      { Source := source, Fee := env.BaseFee, Checkpoint := checkpoint, Operations := ops }
    ({ T := "transaction",
       H := { Version := "", Created := now, Hash := txBody.MakeHashString env,
              Signature := "" },
       B := txBody }, none)

def Transaction.GetType (tx : Transaction) : String := tx.T

def Transaction.GetHash (tx : Transaction) : String := tx.H.Hash

def Transaction.Source (tx : Transaction) : String := tx.B.Source

def Transaction.IsValidCheckpoint (env : Env) (tx : Transaction) (checkpoint : String) : Bool :=
  if tx.B.Checkpoint = checkpoint then true
  else
    match env.ParseCheckpoint checkpoint with
    | Except.error _ => false
    | Except.ok inputCheckpoint =>
      match env.ParseCheckpoint tx.B.Checkpoint with
      | Except.error _ => false
      | Except.ok currentCheckpoint => inputCheckpoint.1 == currentCheckpoint.1

/-- The method `TotalAmount`; the result is `none` when a `MustAdd` or `MustMult`
panics. -/
def Transaction.TotalAmount (env : Env) (tx : Transaction) (withFee : Bool) : Option Nat :=
  let amount : Option Nat :=
    tx.B.Operations.foldl
      (fun acc op => acc.bind (fun a => Amount.MustAdd env.MaximumBalance a op.B.GetAmount))
      (some 0)
  if withFee then
    amount.bind (fun a =>
      (Amount.MustMult env.MaximumBalance tx.B.Fee tx.B.Operations.length).bind
        (fun fee => Amount.MustAdd env.MaximumBalance a fee))
  else
    amount

/-- A `keypair.KP`, seen through its `Sign` method. -/
structure KP where
  Sign : Bytes → Bytes × Option Err

def Transaction.Sign (env : Env) (tx : Transaction) (kp : KP) (networkID : Bytes) :
    Transaction :=
  let hash := tx.B.MakeHashString env
  let signature := (kp.Sign (networkID ++ stringBytes hash)).1
  { tx with H := { tx.H with Hash := hash, Signature := env.base58Encode signature } }

def Transaction.NextSourceCheckpoint (env : Env) (tx : Transaction) : String :=
  env.MakeCheckpoint tx.GetHash tx.GetHash

def Transaction.NextTargetCheckpoint (env : Env) (tx : Transaction) : String :=
  let parsed : String × String :=
    match env.ParseCheckpoint tx.B.Checkpoint with
    | Except.ok p => p
    | Except.error _ => ("", "")
  env.MakeCheckpoint parsed.1 tx.GetHash

/-! ## Externalization: `FinishTransaction`

`FinishTransaction` is embedded from `transaction.go`.  The functions it
calls that live outside the embedded sources (ballot serialization, the store
transaction, the block-transaction, operation and account helpers) are the
fields of `Collaborators`; any behaviour of theirs is allowed. -/

/-- Modelled from the spec: the vote a ballot carries. -/
inductive VotingHole where
  | YES
  | NO
  | NOTYET
  deriving DecidableEq, Repr

/-- Modelled from the spec: the protocol state a ballot is cast in. -/
inductive BallotState where
  | INIT
  | SIGN
  | ACCEPT
  | ALLCONFIRM
  deriving DecidableEq, Repr

/-- Modelled from the spec: a ballot,
`{ message, node_key, voting_hole, state, hash, signature }`. -/
structure Ballot where
  message : Option Transaction
  node_key : String
  voting_hole : VotingHole
  state : BallotState
  hash : String
  signature : String
  deriving DecidableEq, Repr

/-- Modelled from the spec: a block account, `{ address, balance, checkpoint }`. -/
structure BlockAccount where
  Address : String
  Balance : Nat
  Checkpoint : String
  deriving DecidableEq, Repr

/-- Modelled from the spec: the persistent record of an externalized
transaction,
`{ hash, source, fee, checkpoint, operations[], raw_ballot_bytes, saved_at }`. -/
structure BlockTransaction where
  hash : String
  source : String
  fee : Nat
  checkpoint : String
  operations : List Operation
  raw_ballot_bytes : Bytes
  saved_at : String
  deriving DecidableEq, Repr

/-- What `FinishTransaction` hands back to its caller: `err == nil`, an
error, or a panic that unwinds through it. -/
inductive Returned where
  | nil
  | error (e : Err)
  | panic
  deriving DecidableEq, Repr

/-- The functions `FinishTransaction` calls that are declared outside the
embedded sources.  A function that takes the store transaction `ts` returns
its error together with the state of `ts` after the call. -/
structure Collaborators (β : Type) where
  /-- The call `ballot.Data().Serialize()`. -/
  Serialize : Ballot → Except Err Bytes
  /-- The call `st.OpenTransaction()`: the store transaction, or an error. -/
  OpenTransaction : LevelDBBackend β → Except Err (LevelDBBackend β)
  /-- The error result of `ts.Commit()`. -/
  Commit : LevelDBBackend β → Option Err
  NewBlockTransactionFromTransaction : Transaction → Bytes → BlockTransaction
  /-- The call `bt.Save(ts)`. -/
  BlockTransactionSave : BlockTransaction → LevelDBBackend β → Option Err × LevelDBBackend β
  FinishOperation : LevelDBBackend β → Transaction → Operation → Option Err × LevelDBBackend β
  GetBlockAccount : LevelDBBackend β → String → Except Err BlockAccount
  /-- The call `ba.Withdraw(amount, checkpoint)`: the error and the account afterwards. -/
  Withdraw : BlockAccount → Nat → String → Option Err × BlockAccount
  /-- The call `ba.Save(ts)`. -/
  BlockAccountSave : BlockAccount → LevelDBBackend β → Option Err × LevelDBBackend β

/-- The loop `for _, op := range tx.B.Operations` of `FinishTransaction`:
the first failing operation ends it with its error; otherwise the store
transaction after the last operation. -/
def finishOperations {β : Type} (x : Collaborators β) (tx : Transaction) :
    LevelDBBackend β → List Operation → Except Err (LevelDBBackend β)
  | ts, [] => Except.ok ts
  | ts, op :: rest =>
    match x.FinishOperation ts tx op with
    | (some e, _) => Except.error e
    | (none, ts1) => finishOperations x tx ts1 rest

/-- Modelled from the spec: `ts.Discard()` drops the writes buffered in the
store transaction `ts`; the store `st` it was opened on keeps its contents. -/
def LevelDBBackend.Discard {β : Type} (st _ts : LevelDBBackend β) : LevelDBBackend β := st

/-- The function `FinishTransaction`.  The result pairs what is returned with the store
`st` afterwards.  A store transaction buffers its writes: after `Discard`, or
when `Commit` was not reached or failed, `st` is as it was; after a
successful `Commit`, `st` holds what the store transaction held. -/
def FinishTransaction {β : Type} (x : Collaborators β) (env : Env) (st : LevelDBBackend β)
    (ballot : Ballot) (tx : Transaction) : Returned × LevelDBBackend β :=
  match x.Serialize ballot with
  | Except.error e => (Returned.error e, st)
  | Except.ok raw =>
    match x.OpenTransaction st with
    | Except.error e => (Returned.error e, st)
    | Except.ok ts =>
      let bt := x.NewBlockTransactionFromTransaction tx raw
      match x.BlockTransactionSave bt ts with
      | (some e, ts1) => (Returned.error e, st.Discard ts1)
      | (none, ts1) =>
        match finishOperations x tx ts1 tx.B.Operations with
        | Except.error e => (Returned.error e, st.Discard ts1)
        | Except.ok ts2 =>
          match x.GetBlockAccount ts2 tx.B.Source with
          | Except.error _ => (Returned.error ErrorBlockAccountDoesNotExists, st.Discard ts2)
          | Except.ok baSource =>
            match tx.TotalAmount env true with
            | none => (Returned.panic, st)
            | some total =>
              match x.Withdraw baSource total (tx.NextSourceCheckpoint env) with
              | (some e, _) => (Returned.error e, st.Discard ts2)
              | (none, baSource1) =>
                match x.BlockAccountSave baSource1 ts2 with
                | (some e, ts3) => (Returned.error e, st.Discard ts3)
                | (none, ts3) =>
                  match x.Commit ts3 with
                  | some e => (Returned.error e, st.Discard ts3)
                  | none => (Returned.nil, ts3)

/-! ## The account book and block records, modelled from the specification

The `block` package and the block-transaction / operation helpers are not
among the embedded sources.  They are modelled from the specification over a
store whose values are the decoded records (the JSON codec is taken to be
lossless). -/

/-- Modelled from the spec: a block-operation record, one per externalized
operation, keyed `bo:<tx_hash>:<op_index>`. -/
structure BlockOperation where
  tx_hash : String
  op_index : Nat
  operation : Operation
  deriving DecidableEq, Repr

/-- Modelled from the spec: what a stored value decodes to, following the
persisted key layout (accounts, block-transactions, the empty index entry,
block-operations). -/
inductive Record where
  | account (ba : BlockAccount)
  | blockTransaction (bt : BlockTransaction)
  | blockOperation (bo : BlockOperation)
  | empty
  deriving DecidableEq, Repr

/-- A record as a value handed to the store: it serializes to itself. -/
def Record.toValue (r : Record) : Value Record :=
  { Serialize := some (Except.ok r), EncodeJSONValue := Except.ok r }

/-- Modelled from the spec: the persistent key `account:<address>`. -/
def GetBlockAccountKey (address : String) : String := "account:" ++ address

/-- Modelled from the spec: the persistent key `bt:<tx_hash>`. -/
def GetBlockTransactionKey (hash : String) : String := "bt:" ++ hash

/-- Modelled from the spec: the secondary index key
`bt-source:<address>:<saved_at>:<hash>`. -/
def GetBlockTransactionKeySource (address savedAt hash : String) : String :=
  "bt-source:" ++ address ++ ":" ++ savedAt ++ ":" ++ hash

/-- Modelled from the spec: the persistent key `bo:<tx_hash>:<op_index>`. -/
def GetBlockOperationKey (txHash : String) (opIndex : Nat) : String :=
  "bo:" ++ txHash ++ ":" ++ toString opIndex

/-- Modelled from the spec: `NewBlockAccount(address, balance, checkpoint)`. -/
def NewBlockAccount (address : String) (balance : Nat) (checkpoint : String) : BlockAccount :=
  { Address := address, Balance := balance, Checkpoint := checkpoint }

/-- Modelled from the spec: the account stored under `account:<address>`,
or an error when there is none (or the value is not an account). -/
def GetBlockAccount (st : LevelDBBackend Record) (address : String) : Except Err BlockAccount :=
  match st.GetRaw (GetBlockAccountKey address) with
  | Except.error e => Except.error e
  | Except.ok (Record.account ba) => Except.ok ba
  | Except.ok _ => Except.error (Err.plain "json: cannot unmarshal into BlockAccount")

/-- Modelled from the spec: `Save(store)` is create-only on first save and an
update thereafter. -/
def BlockAccount.Save (ba : BlockAccount) (st : LevelDBBackend Record) :
    Option Err × LevelDBBackend Record :=
  let key := GetBlockAccountKey ba.Address
  if (st.Has key).1 then st.Set key (Record.account ba).toValue
  else st.New key (Record.account ba).toValue

/-- Modelled from the spec: `Withdraw(amount, next_checkpoint)` fails with
`BalanceUnderZero` if `amount > balance`, otherwise deducts and replaces the
checkpoint. -/
def BlockAccount.Withdraw (ba : BlockAccount) (fund : Nat) (checkpoint : String) :
    Option Err × BlockAccount :=
  if fund > ba.Balance then (some ErrorAccountBalanceUnderZero, ba)
  else (none, { ba with Balance := ba.Balance - fund, Checkpoint := checkpoint })

/-- Modelled from the spec: `Deposit(amount, next_checkpoint)` fails with
`MaximumBalanceReached` on overflow past the maximum-supply constant,
otherwise adds and replaces the checkpoint. -/
def BlockAccount.Deposit (env : Env) (ba : BlockAccount) (fund : Nat) (checkpoint : String) :
    Option Err × BlockAccount :=
  match Amount.Add env.MaximumBalance ba.Balance fund with
  | Except.error e => (some e, ba)
  | Except.ok v => (none, { ba with Balance := v, Checkpoint := checkpoint })

/-- Modelled from the spec: the block-transaction record of a transaction
and the raw ballot bytes; `saved_at` is set when it is saved. -/
def NewBlockTransactionFromTransaction (tx : Transaction) (raw : Bytes) : BlockTransaction :=
  { hash := tx.H.Hash, source := tx.B.Source, fee := tx.B.Fee, checkpoint := tx.B.Checkpoint,
    operations := tx.B.Operations, raw_ballot_bytes := raw, saved_at := "" }

/-- Modelled from the spec: saving a block-transaction creates the record
keyed by the transaction hash with the create-only `new` of the store
(sections 4.1 and 4.5, step 2); when the key is taken, the transaction was
externalized before and the save reports already-saved (section 8: a retried
externalization returns `already-saved`).  It then creates the per-source
index entry.  `now` is the time of the save. -/
def BlockTransaction.Save (now : String) (bt : BlockTransaction) (st : LevelDBBackend Record) :
    Option Err × LevelDBBackend Record :=
  match st.New (GetBlockTransactionKey bt.hash)
      (Record.blockTransaction { bt with saved_at := now }).toValue with
  | (some _, st1) => (some ErrorAlreadySaved, st1)
  | (none, st1) =>
    st1.New (GetBlockTransactionKeySource bt.source now bt.hash) Record.empty.toValue

/-- Modelled from the spec: applying one operation looks up or creates the
target account, deposits the amount with the next target checkpoint, saves
the account, and creates the block-operation record. -/
def FinishOperation (env : Env) (st : LevelDBBackend Record) (tx : Transaction)
    (op : Operation) : Option Err × LevelDBBackend Record :=
  let target : BlockAccount :=
    match GetBlockAccount st op.B.TargetAddress with
    | Except.ok ba => ba
    | Except.error _ => NewBlockAccount op.B.TargetAddress 0 (tx.NextTargetCheckpoint env)
  match target.Deposit env op.B.GetAmount (tx.NextTargetCheckpoint env) with
  | (some e, _) => (some e, st)
  | (none, target1) =>
    match target1.Save st with
    | (some e, st1) => (some e, st1)
    | (none, st1) =>
      st1.New (GetBlockOperationKey tx.GetHash (tx.B.Operations.indexOf op))
        (Record.blockOperation
          { tx_hash := tx.GetHash, op_index := tx.B.Operations.indexOf op,
            operation := op }).toValue

/-- Modelled from the spec: the collaborators of `FinishTransaction` as the
specification describes them.  A store transaction starts from the contents
of the store and sees its own writes; opening and committing it succeed.
`now` is the time of the save and `serialize` the ballot serializer. -/
def specCollaborators (env : Env) (now : String) (serialize : Ballot → Except Err Bytes) :
    Collaborators Record :=
  { Serialize := serialize,
    OpenTransaction := fun st => Except.ok st,
    Commit := fun _ => none,
    NewBlockTransactionFromTransaction := NewBlockTransactionFromTransaction,
    BlockTransactionSave := BlockTransaction.Save now,
    FinishOperation := FinishOperation env,
    GetBlockAccount := GetBlockAccount,
    Withdraw := BlockAccount.Withdraw,
    BlockAccountSave := BlockAccount.Save }

/-- Every account record of the store is kept under the key of its own
address (as `BlockAccount.Save` writes it). -/
def accountsKeyed (st : LevelDBBackend Record) : Bool :=
  st.DB.all (fun kv =>
    match kv.2 with
    | Record.account ba => kv.1 == GetBlockAccountKey ba.Address
    | _ => true)

/-- The claim about the source account of an externalized transaction: the
source has an account in the store before (`st`) and after (`st1`), the
balance before is the balance after plus `TotalAmount(true)`, and the
checkpoint after is `MakeCheckpoint(hash, hash)`. -/
def sourceSettled (env : Env) (st st1 : LevelDBBackend Record) (tx : Transaction) : Bool :=
  match GetBlockAccount st tx.B.Source, GetBlockAccount st1 tx.B.Source,
      tx.TotalAmount env true with
  | Except.ok before, Except.ok after, some total =>
    after.Balance + total == before.Balance &&
      after.Checkpoint == env.MakeCheckpoint tx.GetHash tx.GetHash
  | _, _, _ => false

/-- The sum of the amounts of a list of operations, in order. -/
def sumAmounts : List Operation → Nat
  | [] => 0
  | op :: rest => op.B.GetAmount + sumAmounts rest

/-! ## Concrete instances used to evaluate the definitions -/

/-- The claim that two checkpoint strings have equal `subtracted` halves:
both parse as `"<sub>-<add>"` and the first components agree. -/
def subtractedHalvesEqual (env : Env) (a b : String) : Bool :=
  match env.ParseCheckpoint a, env.ParseCheckpoint b with
  | Except.ok p, Except.ok q => p.1 == q.1
  | _, _ => false

/-- A small environment: maximum supply 1000, base fee 1, the checkpoint
codec of the specification, and a toy hash that keeps the source and the
checkpoint of a body. -/
def exampleEnv : Env :=
  { MaximumBalance := 1000,
    BaseFee := 1,
    MustMakeObjectHash := fun tb => stringBytes (tb.Source ++ "/" ++ tb.Checkpoint),
    base58Encode := fun bs => String.mk (bs.map (fun b => Char.ofNat b.toNat)),
    ParseCheckpoint := ParseCheckpoint,
    MakeCheckpoint := MakeCheckpoint }

def examplePayment (target : String) (amount : Nat) : Operation :=
  { H := { OpType := "payment" },
    B := OperationBody.payment { Target := target, Amount := amount } }

/-- A transaction from `source` with the given checkpoint, fee and
operations, and hash `hash`. -/
def exampleTx (hash source checkpoint : String) (fee : Nat) (ops : List Operation) :
    Transaction :=
  { T := "transaction",
    H := { Version := "", Created := "", Hash := hash, Signature := "" },
    B := { Source := source, Fee := fee, Checkpoint := checkpoint, Operations := ops } }

/-- A key pair whose signature is its input reversed. -/
def exampleKP : KP := { Sign := fun input => (input.reverse, none) }

def exampleCreateAccount (target : String) (amount : Nat) : Operation :=
  { H := { OpType := "create-account" },
    B := OperationBody.createAccount { Target := target, Amount := amount } }

/-- A ballot for a transaction hash, and a serializer that always succeeds. -/
def exampleBallot (hash : String) : Ballot :=
  { message := none, node_key := "N1", voting_hole := VotingHole.YES,
    state := BallotState.ALLCONFIRM, hash := hash, signature := "" }

def exampleSerialize (b : Ballot) : Except Err Bytes := Except.ok (stringBytes b.hash)

/-- The collaborators of the specification at time `"t1"`. -/
def exampleCollaborators : Collaborators Record :=
  specCollaborators exampleEnv "t1" exampleSerialize

/-- A store holding account `A` with balance `balance` and checkpoint `"u-u"`. -/
def exampleStore (balance : Nat) : LevelDBBackend Record :=
  { DB := [("account:A", Record.account (NewBlockAccount "A" balance "u-u"))] }

/-- A store holding account `A` with balance 1 and account `B` with balance 0. -/
def exampleStoreAB : LevelDBBackend Record :=
  { DB := [("account:A", Record.account (NewBlockAccount "A" 1 "u-u")),
           ("account:B", Record.account (NewBlockAccount "B" 0 "v-v"))] }

/-! ## Batched creation: `News` -/

/-- An `Item` handed to `News` (the struct is declared outside the embedded
sources), seen through its `Key` and through the result of
`util.EncodeJSONValue` applied to it. -/
structure Item (β : Type) where
  Key : String
  EncodeJSONValue : Except Err β

/-- A `leveldb.Batch`: the puts recorded so far, oldest first. -/
abbrev Batch (β : Type) := List (String × β)

/-- Engine call `DB.Write`: apply the puts of a batch in order, atomically. -/
def DB.Write {β : Type} (db : DB β) (batch : Batch β) : DB β :=
  batch.foldl (fun d kv => DB.Put d kv.1 kv.2) db

/-- The first loop of `News`: the error for the first item whose key exists
(or whose `Has` fails), `none` when the loop completes. -/
def LevelDBBackend.newsExisting {β : Type} (st : LevelDBBackend β) : List (Item β) → Option Err
  | [] => none
  | v :: vs =>
    let (found, err) := st.Has v.Key
    if found || err.isSome then
      if found then some (Err.plain ("found existing key, '" ++ v.Key ++ "'"))
      else err
    else st.newsExisting vs

/-- The second loop of `News`: encode each item and record its put in the
batch; the first encoding error ends the loop. -/
def newsBatch {β : Type} : Batch β → List (Item β) → Except Err (Batch β)
  | batch, [] => Except.ok batch
  | batch, v :: vs =>
    match v.EncodeJSONValue with
    | Except.error e => Except.error e
    | Except.ok encoded => newsBatch (batch ++ [(v.Key, encoded)]) vs

def LevelDBBackend.News {β : Type} (st : LevelDBBackend β) (vs : List (Item β)) :
    Option Err × LevelDBBackend β :=
  if vs.length < 1 then (some (Err.plain "empty values"), st)
  else
    match st.newsExisting vs with
    | some e => (some e, st)
    | none =>
      match newsBatch [] vs with
      | Except.error e => (some e, st)
      | Except.ok batch => (none, { st with DB := DB.Write st.DB batch })

/-- An item with key `k` that encodes to `b`. -/
def exampleItem (k b : String) : Item String := { Key := k, EncodeJSONValue := Except.ok b }

/-! ## Iteration: `GetIterator`

The engine iterator (`iterator.Iterator` of goleveldb) walks a snapshot of the
entries of a key range in key order.  Its cursor starts before the first
entry; `Next` and `Prev` move it and report whether it rests on an entry;
`Last` puts it on the last entry; a released iterator no longer moves. -/

/-- An engine iterator: the entries before the cursor (nearest first), the
entry under the cursor, the entries after it (nearest first), and whether it
has been released. -/
structure Iterator (β : Type) where
  before : List (String × β)
  current : Option (String × β)
  after : List (String × β)
  released : Bool
  deriving DecidableEq, Repr

/-- A `util.Range` made by `util.BytesPrefix`: the keys that start with the
given string. -/
structure Range where
  start : String
  deriving DecidableEq, Repr

/-- Engine call `util.BytesPrefix`: the range of the keys with the given
leading bytes. -/
def BytesPrefix (pfx : String) : Range := { start := pfx }

/-- Whether a key lies in a range. -/
def Range.contains (r : Range) (key : String) : Bool := r.start.data.isPrefixOf key.data

/-- Engine call `DB.NewIterator(slice, nil)`: an iterator over the entries
of the range (all entries for a nil range), its cursor before the first. -/
def DB.NewIterator {β : Type} (db : DB β) (slice : Option Range) : Iterator β :=
  { before := [],
    current := none,
    after := match slice with
      | none => db
      | some r => db.filter (fun kv => r.contains kv.1),
    released := false }

/-- Engine call `Next`. -/
def Iterator.Next {β : Type} (it : Iterator β) : Bool × Iterator β :=
  if it.released then (false, it)
  else
    match it.after with
    | [] => (false, { it with before := it.current.toList ++ it.before, current := none })
    | x :: xs =>
      (true, { it with before := it.current.toList ++ it.before, current := some x,
                       after := xs })

/-- Engine call `Prev`. -/
def Iterator.Prev {β : Type} (it : Iterator β) : Bool × Iterator β :=
  if it.released then (false, it)
  else
    match it.before with
    | [] => (false, { it with after := it.current.toList ++ it.after, current := none })
    | x :: xs =>
      (true, { it with after := it.current.toList ++ it.after, current := some x,
                       before := xs })

/-- Engine call `Last`. -/
def Iterator.Last {β : Type} (it : Iterator β) : Bool × Iterator β :=
  if it.released then (false, it)
  else
    match (it.before.reverse ++ it.current.toList ++ it.after).reverse with
    | [] => (false, it)
    | x :: xs => (true, { it with before := xs, current := some x, after := [] })

/-- Engine call `Key`: the key under the cursor, nil when there is none. -/
def Iterator.Key {β : Type} (it : Iterator β) : Option String :=
  if it.released then none else it.current.map Prod.fst

/-- Engine call `Value`: the value under the cursor, nil when there is none. -/
def Iterator.Value {β : Type} (it : Iterator β) : Option β :=
  if it.released then none else it.current.map Prod.snd

/-- Engine call `Release`. -/
def Iterator.Release {β : Type} (it : Iterator β) : Iterator β :=
  { it with released := true }

/-- An `IterItem` (the struct is declared outside the embedded sources):
the counter `N` and the key and value bytes, `none` for nil.  `N` is an
`int64` in the source; a store holds fewer than `2^63` entries, so it is
counted in `Nat`. -/
structure IterItem (β : Type) where
  N : Nat
  Key : Option String
  Value : Option β
  deriving DecidableEq, Repr

/-- The zero value `IterItem{}`. -/
def IterItem.zero {β : Type} : IterItem β := { N := 0, Key := none, Value := none }

/-- The pair of closures `GetIterator` returns, as the variables they
capture: the early return whose next function never has an item, or the
iterator, the direction (`funcNext` is `iter.Prev` when `reverse`), the flag
`hasUnsent` and the counter `n`. -/
inductive IterFuncs (β : Type) where
  | exhausted
  | live (iter : Iterator β) (reverse : Bool) (hasUnsent : Bool) (n : Nat)
  deriving DecidableEq, Repr

/-- `GetIterator`.  `len(prefix)` counts bytes and is positive exactly when
the string is not empty. -/
def LevelDBBackend.GetIterator {β : Type} (st : LevelDBBackend β) (pfx : String)
    (reverse : Bool) : IterFuncs β :=
  let dbRange : Option Range := if pfx.length > 0 then some (BytesPrefix pfx) else none
  let iter := DB.NewIterator st.DB dbRange
  if reverse then
    match iter.Last with
    | (false, _) => IterFuncs.exhausted
    | (true, iter1) => IterFuncs.live iter1 true true 0
  else
    IterFuncs.live iter false false 0

/-- One call of the first closure returned by `GetIterator`: the item, whether
there was one, and the captured variables afterwards. -/
def IterFuncs.next {β : Type} : IterFuncs β → (IterItem β × Bool) × IterFuncs β
  | IterFuncs.exhausted => ((IterItem.zero, false), IterFuncs.exhausted)
  | IterFuncs.live iter reverse hasUnsent n =>
    if hasUnsent then
      (({ N := n, Key := iter.Key, Value := iter.Value }, true),
        IterFuncs.live iter reverse false n)
    else
      match (if reverse then iter.Prev else iter.Next) with
      | (false, iter1) => ((IterItem.zero, false), IterFuncs.live iter1.Release reverse false n)
      | (true, iter1) =>
        (({ N := n + 1, Key := iter1.Key, Value := iter1.Value }, true),
          IterFuncs.live iter1 reverse false (n + 1))

/-- The second closure returned by `GetIterator`: release the iterator. -/
def IterFuncs.close {β : Type} : IterFuncs β → IterFuncs β
  | IterFuncs.exhausted => IterFuncs.exhausted
  | IterFuncs.live iter reverse hasUnsent n =>
    IterFuncs.live iter.Release reverse hasUnsent n

/-- The results of the first `m` calls of the next function. -/
def IterFuncs.nextN {β : Type} : Nat → IterFuncs β → List (IterItem β × Bool)
  | 0, _ => []
  | m + 1, f => f.next.1 :: IterFuncs.nextN m f.next.2

/-- The entries of the store whose key starts with `pfx`, in store order. -/
def LevelDBBackend.matching {β : Type} (st : LevelDBBackend β) (pfx : String) :
    List (String × β) :=
  st.DB.filter (fun kv => pfx.data.isPrefixOf kv.1.data)

/-- Whether the keys of a list of entries are strictly ascending in byte
order, as the engine keeps them. -/
def DB.ascending {β : Type} : DB β → Bool
  | [] => true
  | [_] => true
  | a :: b :: rest => keyLt a.1 b.1 && DB.ascending (b :: rest)

/-- The entries of a list as successful results numbered from `start`. -/
def numbered {β : Type} : Nat → List (String × β) → List (IterItem β × Bool)
  | _, [] => []
  | start, kv :: rest =>
    ({ N := start, Key := some kv.1, Value := some kv.2 }, true) :: numbered (start + 1) rest

/-- A store with keys under two prefixes. -/
def exampleKeys : LevelDBBackend String :=
  { DB := [("bo:h1:0", "x"), ("bt:h1", "y"), ("bt:h2", "z")] }

/-! ## Network messages (`lib/network/base.go`) -/

/-- A `MessageType` is a Go string. -/
abbrev MessageType := String

def MessageFromClient : MessageType := "message"
def ConnectMessage : MessageType := "connect"
def BallotMessage : MessageType := "ballot"
def GetNodeInfoMessage : MessageType := "get-node-info"

/-- A network `Message` (the Go field `Type` is named `MsgType` here). -/
structure Message where
  MsgType : MessageType
  Data : Bytes
  deriving DecidableEq, Repr

def Message.IsEmpty (t : Message) : Bool := t.Data.length < 1

def NewMessage (mt : MessageType) (data : Bytes) : Message := { MsgType := mt, Data := data }

/-! ## The node runner (`lib/node_runner.go`)

The checker runner, the stage functions, the consensus and the voting
staging record live outside the embedded sources.  The runner is modelled
from the specification; the rest is collected in `Absent` and left
arbitrary. -/

/-- An error returned by a checker stage: a `sebakcommon.CheckerErrorStop`
or any other error. -/
inductive CheckerError where
  | stop (Message : String)
  | other (e : Err)
  deriving DecidableEq, Repr

/-- The type assertion `_, ok := err.(sebakcommon.CheckerErrorStop)`. -/
def CheckerError.isStop : CheckerError → Bool
  | CheckerError.stop _ => true
  | CheckerError.other _ => false

/-- The stage functions named in `DefaultHandleMessageFromClientCheckerFuncs`. -/
inductive ClientCheckerFunc where
  | CheckNodeRunnerHandleMessageTransactionUnmarshal
  | CheckNodeRunnerHandleMessageTransactionHasSameSource
  | CheckNodeRunnerHandleMessageHistory
  | CheckNodeRunnerHandleMessageISAACReceiveMessage
  | CheckNodeRunnerHandleMessageSignBallot
  | CheckNodeRunnerHandleMessageBroadcast
  deriving DecidableEq, Repr

/-- The stage functions named in `DefaultHandleBallotCheckerFuncs`. -/
inductive BallotCheckerFunc where
  | CheckNodeRunnerHandleBallotIsWellformed
  | CheckNodeRunnerHandleBallotNotFromKnownValidators
  | CheckNodeRunnerHandleBallotCheckIsNew
  | CheckNodeRunnerHandleBallotReceiveBallot
  | CheckNodeRunnerHandleBallotHistory
  | CheckNodeRunnerHandleBallotStore
  | CheckNodeRunnerHandleBallotIsBroadcastable
  | CheckNodeRunnerHandleBallotVotingHole
  | CheckNodeRunnerHandleBallotBroadcast
  deriving DecidableEq, Repr

def DefaultHandleMessageFromClientCheckerFuncs : List ClientCheckerFunc :=
  [ ClientCheckerFunc.CheckNodeRunnerHandleMessageTransactionUnmarshal,
    ClientCheckerFunc.CheckNodeRunnerHandleMessageTransactionHasSameSource,
    ClientCheckerFunc.CheckNodeRunnerHandleMessageHistory,
    ClientCheckerFunc.CheckNodeRunnerHandleMessageISAACReceiveMessage,
    ClientCheckerFunc.CheckNodeRunnerHandleMessageSignBallot,
    ClientCheckerFunc.CheckNodeRunnerHandleMessageBroadcast ]

def DefaultHandleBallotCheckerFuncs : List BallotCheckerFunc :=
  [ BallotCheckerFunc.CheckNodeRunnerHandleBallotIsWellformed,
    BallotCheckerFunc.CheckNodeRunnerHandleBallotNotFromKnownValidators,
    BallotCheckerFunc.CheckNodeRunnerHandleBallotCheckIsNew,
    BallotCheckerFunc.CheckNodeRunnerHandleBallotReceiveBallot,
    BallotCheckerFunc.CheckNodeRunnerHandleBallotHistory,
    BallotCheckerFunc.CheckNodeRunnerHandleBallotStore,
    BallotCheckerFunc.CheckNodeRunnerHandleBallotIsBroadcastable,
    BallotCheckerFunc.CheckNodeRunnerHandleBallotVotingHole,
    BallotCheckerFunc.CheckNodeRunnerHandleBallotBroadcast ]

/-- A record written through the logger of the node runner. -/
inductive LogRecord where
  | debug (msg : String)
  | error (msg : String)
  deriving DecidableEq, Repr

/-- The state of a `NodeRunner`: its network id, the addresses of the
validators of its local node, its consensus (of state type `κ`), its store,
the two stage lists and what it has logged. -/
structure NodeRunner (κ : Type) where
  networkID : Bytes
  validators : List String
  consensus : κ
  storage : LevelDBBackend Record
  handleMessageFromClientCheckerFuncs : List ClientCheckerFunc
  handleBallotCheckerFuncs : List BallotCheckerFunc
  log : List LogRecord

def NodeRunner.logDebug {κ : Type} (nr : NodeRunner κ) (msg : String) : NodeRunner κ :=
  { nr with log := nr.log ++ [LogRecord.debug msg] }

def NodeRunner.logError {κ : Type} (nr : NodeRunner κ) (msg : String) : NodeRunner κ :=
  { nr with log := nr.log ++ [LogRecord.error msg] }

/-- The checker of the client message pipeline.  `NodeRunner` is the runner
the checker points to: a stage changes the runner through it. -/
structure NodeRunnerHandleMessageChecker (κ : Type) where
  Funcs : List ClientCheckerFunc
  NodeRunner : NodeRunner κ
  NetworkID : Bytes
  Message : Message

/-- The checker of the ballot pipeline; `ς` is the type of the voting staging
record.  `NodeRunner` is the runner the checker points to. -/
structure NodeRunnerHandleBallotChecker (κ ς : Type) where
  Funcs : List BallotCheckerFunc
  NodeRunner : NodeRunner κ
  NetworkID : Bytes
  Message : Message
  VotingHole : VotingHole
  Ballot : Ballot
  VotingStateStaging : ς

/-- The zero value of `Ballot`. -/
def Ballot.zero : Ballot :=
  { message := none, node_key := "", voting_hole := VotingHole.NOTYET,
    state := BallotState.INIT, hash := "", signature := "" }

/-- What `node_runner.go` uses and the embedded sources do not define: the
bodies of the stage functions, the defer hooks, the validator parser, the
methods `IsEmpty` / `IsClosed` and the zero value of the voting staging, and
`Consensus.CloseConsensus` (its error and the consensus afterwards). -/
structure Absent (κ ς : Type) where
  clientFunc : ClientCheckerFunc → NodeRunnerHandleMessageChecker κ →
    Option CheckerError × NodeRunnerHandleMessageChecker κ
  ballotFunc : BallotCheckerFunc → NodeRunnerHandleBallotChecker κ ς →
    Option CheckerError × NodeRunnerHandleBallotChecker κ ς
  clientDeferFunc : Nat → NodeRunnerHandleMessageChecker κ → Option CheckerError →
    NodeRunnerHandleMessageChecker κ
  ballotDeferFunc : Nat → NodeRunnerHandleBallotChecker κ ς → Option CheckerError →
    NodeRunnerHandleBallotChecker κ ς
  NewValidatorFromString : Bytes → Option Err
  zeroStaging : ς
  IsEmpty : ς → Bool
  IsClosed : ς → Bool
  CloseConsensus : κ → Ballot → Option Err × κ

/-- What a run of a checker pipeline hands back: the error, the checker
afterwards, and the stages that were invoked, in order. -/
structure RunResult (φ σ : Type) where
  err : Option CheckerError
  checker : σ
  ran : List φ

/-- Modelled from the spec: the stage loop of `RunChecker`, for the stages
from index `i` on.  Before each stage the defer hook is invoked with the
index and a nil error; a stage that returns `stop` or any other error ends
the run with that error, and no later stage is invoked. -/
def runCheckerFrom {φ σ : Type} (run : φ → σ → Option CheckerError × σ)
    (deferFunc : Nat → σ → Option CheckerError → σ) : Nat → List φ → σ → RunResult φ σ
  | _, [], c => { err := none, checker := c, ran := [] }
  | i, f :: rest, c =>
    match run f (deferFunc i c none) with
    | (some err, c1) => { err := some err, checker := c1, ran := [f] }
    | (none, c1) =>
      let r := runCheckerFrom run deferFunc (i + 1) rest c1
      { r with ran := f :: r.ran }

/-- Modelled from the spec: `RunChecker(checker, deferFunc)` runs the stages
of the checker in order from index 0. -/
def RunChecker {φ σ : Type} (run : φ → σ → Option CheckerError × σ)
    (deferFunc : Nat → σ → Option CheckerError → σ) (funcs : List φ) (c : σ) :
    RunResult φ σ :=
  runCheckerFrom run deferFunc 0 funcs c

/-- The method `closeConsensus`; the runner is the one the checker points to. -/
def NodeRunner.closeConsensus {κ ς : Type} (x : Absent κ ς)
    (checker : NodeRunnerHandleBallotChecker κ ς) : Option Err × NodeRunner κ :=
  if x.IsEmpty checker.VotingStateStaging then (none, checker.NodeRunner)
  else if !x.IsClosed checker.VotingStateStaging then (none, checker.NodeRunner)
  else
    match x.CloseConsensus checker.NodeRunner.consensus checker.Ballot with
    | (some err, k) =>
      (some err,
        ({ checker.NodeRunner with consensus := k }).logError "new failed to close consensus")
    | (none, k) =>
      (none, ({ checker.NodeRunner with consensus := k }).logDebug "consensus closed")

/-- The checker that `handleMessage` builds for a ballot message. -/
def NodeRunner.newBallotChecker {κ ς : Type} (x : Absent κ ς) (nr : NodeRunner κ)
    (message : Message) : NodeRunnerHandleBallotChecker κ ς :=
  { Funcs := nr.handleBallotCheckerFuncs,
    NodeRunner := nr.logDebug "got ballot",
    NetworkID := nr.networkID,
    Message := message,
    VotingHole := VotingHole.NOTYET,
    Ballot := Ballot.zero,
    VotingStateStaging := x.zeroStaging }

/-- The run of the ballot pipeline inside `handleMessage`:
`RunChecker(checker, nr.handleBallotCheckerDeferFunc)`. -/
def NodeRunner.ballotPipeline {κ ς : Type} (x : Absent κ ς) (nr : NodeRunner κ)
    (message : Message) : RunResult BallotCheckerFunc (NodeRunnerHandleBallotChecker κ ς) :=
  RunChecker x.ballotFunc x.ballotDeferFunc (NodeRunner.newBallotChecker x nr message).Funcs
    (NodeRunner.newBallotChecker x nr message)

/-- The `BallotMessage` case of the loop of `handleMessage`. -/
def NodeRunner.handleBallotMessage {κ ς : Type} (x : Absent κ ς) (nr : NodeRunner κ)
    (message : Message) : NodeRunner κ :=
  if message.IsEmpty then nr.logError "got empty ballot message`"
  else
    let r := NodeRunner.ballotPipeline x nr message
    let checker1 : NodeRunnerHandleBallotChecker κ ς :=
      match r.err with
      | some err =>
        if !err.isStop then
          { r.checker with NodeRunner := r.checker.NodeRunner.logError "failed to handle ballot" }
        else r.checker
      | none => r.checker
    (NodeRunner.closeConsensus x checker1).2

/-- The `MessageFromClient` case of the loop of `handleMessage`. -/
def NodeRunner.handleMessageFromClient {κ ς : Type} (x : Absent κ ς) (nr : NodeRunner κ)
    (message : Message) : NodeRunner κ :=
  if message.IsEmpty then nr.logError "got empty message from client`"
  else
    let checker : NodeRunnerHandleMessageChecker κ :=
      { Funcs := nr.handleMessageFromClientCheckerFuncs,
        NodeRunner := nr.logDebug "got message from client`",
        NetworkID := nr.networkID,
        Message := message }
    let r := RunChecker x.clientFunc x.clientDeferFunc checker.Funcs checker
    match r.err with
    | some err =>
      if err.isStop then r.checker.NodeRunner
      else r.checker.NodeRunner.logError "failed to handle message from client"
    | none => r.checker.NodeRunner

/-- The body of the loop of `handleMessage` for one received message. -/
def NodeRunner.handleOne {κ ς : Type} (x : Absent κ ς) (nr : NodeRunner κ)
    (message : Message) : NodeRunner κ :=
  if message.MsgType = ConnectMessage then
    match x.NewValidatorFromString message.Data with
    | some _ => (nr.logDebug "got connect").logError "invalid validator data was received"
    | none => nr.logDebug "got connect"
  else if message.MsgType = MessageFromClient then
    NodeRunner.handleMessageFromClient x nr message
  else if message.MsgType = BallotMessage then
    NodeRunner.handleBallotMessage x nr message
  else nr.logError "got unknown"

/-- The method `handleMessage` over the messages received on the channel. -/
def NodeRunner.handleMessage {κ ς : Type} (x : Absent κ ς) (nr : NodeRunner κ)
    (messages : List Message) : NodeRunner κ :=
  messages.foldl (NodeRunner.handleOne x) nr

/-! ## Stage bodies and a consensus for the examples -/

/-- Modelled from the spec: a ballot is well-formed when it names its node,
an `INIT` ballot carries its message and a ballot of a later state carries
none (signatures are not modelled). -/
def Ballot.IsWellFormed (b : Ballot) : Option Err :=
  if b.node_key = "" then some ErrorBallotNoNodeKey
  else if b.state = BallotState.INIT ∧ b.message = none then some ErrorBallotEmptyMessage
  else if b.state ≠ BallotState.INIT ∧ b.message ≠ none then some ErrorBallotHasMessage
  else none

/-- Modelled from the spec: the well-formedness stage decodes the ballot of
the message with `parse`, rejects a malformed one with its error and
otherwise puts the ballot on the checker. -/
def CheckNodeRunnerHandleBallotIsWellformed {κ ς : Type} (parse : Bytes → Except Err Ballot)
    (c : NodeRunnerHandleBallotChecker κ ς) :
    Option CheckerError × NodeRunnerHandleBallotChecker κ ς :=
  match parse c.Message.Data with
  | Except.error e => (some (CheckerError.other e), c)
  | Except.ok ballot =>
    match ballot.IsWellFormed with
    | some e => (some (CheckerError.other e), c)
    | none => (none, { c with Ballot := ballot })

/-- Modelled from the spec: the known-validator stage returns a stop for a
ballot whose node key is not among the validators of the local node, and
lets any other ballot pass; it changes nothing. -/
def CheckNodeRunnerHandleBallotNotFromKnownValidators {κ ς : Type}
    (c : NodeRunnerHandleBallotChecker κ ς) :
    Option CheckerError × NodeRunnerHandleBallotChecker κ ς :=
  if c.NodeRunner.validators.contains c.Ballot.node_key then (none, c)
  else (some (CheckerError.stop "ballot from unknown validator"), c)

/-- Modelled from the spec: the staging record `{ state, closed, next_state }`. -/
structure VotingStateStaging where
  state : BallotState
  closed : Bool
  next_state : BallotState
  deriving DecidableEq, Repr

/-- A decoder for the examples: byte 1 is a well-formed `INIT` ballot of the
unknown node `N9`, byte 2 a `SIGN` ballot of `N9` that still carries its
message (malformed), byte 3 an `ALLCONFIRM` ballot of the validator `N1`. -/
def exampleParse (data : Bytes) : Except Err Ballot :=
  if data = [1] then
    Except.ok { message := some (exampleTx "h1" "A" "u-u" 1 [examplePayment "B" 100]),
                node_key := "N9", voting_hole := VotingHole.YES, state := BallotState.INIT,
                hash := "h1", signature := "" }
  else if data = [2] then
    Except.ok { message := some (exampleTx "h1" "A" "u-u" 1 [examplePayment "B" 100]),
                node_key := "N9", voting_hole := VotingHole.YES, state := BallotState.SIGN,
                hash := "h1", signature := "" }
  else if data = [3] then
    Except.ok { message := none, node_key := "N1", voting_hole := VotingHole.YES,
                state := BallotState.ALLCONFIRM, hash := "h1", signature := "" }
  else Except.error (Err.plain "unexpected end of JSON input")

/-- Stage bodies for the examples.  The consensus is the list of message
hashes that have an open voting result; the staging on the checker is `none`
until the receive stage sets it.  The first two stages are those of the
specification; the receive stage records the hash and stages the state of
the ballot, closed at `ALLCONFIRM`; the store stage fails on a closed staging
(an externalization failure); the other stages pass. -/
def exampleBallotFunc (f : BallotCheckerFunc)
    (c : NodeRunnerHandleBallotChecker (List String) (Option VotingStateStaging)) :
    Option CheckerError ×
      NodeRunnerHandleBallotChecker (List String) (Option VotingStateStaging) :=
  match f with
  | BallotCheckerFunc.CheckNodeRunnerHandleBallotIsWellformed =>
    CheckNodeRunnerHandleBallotIsWellformed exampleParse c
  | BallotCheckerFunc.CheckNodeRunnerHandleBallotNotFromKnownValidators =>
    CheckNodeRunnerHandleBallotNotFromKnownValidators c
  | BallotCheckerFunc.CheckNodeRunnerHandleBallotReceiveBallot =>
    (none,
      { c with
        NodeRunner :=
          { c.NodeRunner with
            consensus :=
              if c.NodeRunner.consensus.contains c.Ballot.hash then c.NodeRunner.consensus
              else c.NodeRunner.consensus ++ [c.Ballot.hash] },
        VotingStateStaging :=
          some { state := c.Ballot.state,
                 closed := decide (c.Ballot.state = BallotState.ALLCONFIRM),
                 next_state := c.Ballot.state } })
  | BallotCheckerFunc.CheckNodeRunnerHandleBallotStore =>
    match c.VotingStateStaging with
    | some s =>
      if s.closed then (some (CheckerError.other ErrorBlockAccountDoesNotExists), c)
      else (none, c)
    | none => (none, c)
  | _ => (none, c)

/-- The parts of the node runner for the examples.  `CloseConsensus` removes
the voting result of the ballot's message hash, as the specification
describes it. -/
def exampleAbsent : Absent (List String) (Option VotingStateStaging) :=
  { clientFunc := fun _ c => (none, c),
    ballotFunc := exampleBallotFunc,
    clientDeferFunc := fun _ c _ => c,
    ballotDeferFunc := fun _ c _ => c,
    NewValidatorFromString := fun _ => none,
    zeroStaging := none,
    IsEmpty := fun s => s.isNone,
    IsClosed := fun s => match s with
      | some r => r.closed
      | none => false,
    CloseConsensus := fun box ballot => (none, box.filter (fun h => h != ballot.hash)) }

/-- A node runner with validators `N1`, `N2`, `N3`, the default pipelines,
an empty store and the given open voting results. -/
def exampleRunner (box : List String) : NodeRunner (List String) :=
  { networkID := [],
    validators := ["N1", "N2", "N3"],
    consensus := box,
    storage := { DB := [] },
    handleMessageFromClientCheckerFuncs := DefaultHandleMessageFromClientCheckerFuncs,
    handleBallotCheckerFuncs := DefaultHandleBallotCheckerFuncs,
    log := [] }

/-! ## Well-formedness of operations, modelled from the specification -/

/-- Modelled from the spec: a payment body is well-formed when its target is
a syntactically valid address and its amount is positive.  `parseAddress`
is the address parser (`none` when the address is valid); the network id
does not enter. -/
def OperationBodyPayment.IsWellFormed (parseAddress : String → Option Err)
    (b : OperationBodyPayment) (_networkID : Bytes) : Option Err :=
  match parseAddress b.Target with
  | some e => some e
  | none => if b.Amount < 1 then some ErrorInvalidOperation else none

/-- Modelled from the spec: a create-account body is well-formed under the
same two conditions. -/
def OperationBodyCreateAccount.IsWellFormed (parseAddress : String → Option Err)
    (b : OperationBodyCreateAccount) (_networkID : Bytes) : Option Err :=
  match parseAddress b.Target with
  | some e => some e
  | none => if b.Amount < 1 then some ErrorInvalidOperation else none

/-- Modelled from the spec: an operation is well-formed when its body is. -/
def Operation.IsWellFormed (parseAddress : String → Option Err) (op : Operation)
    (networkID : Bytes) : Option Err :=
  match op.B with
  | OperationBody.payment b => b.IsWellFormed parseAddress networkID
  | OperationBody.createAccount b => b.IsWellFormed parseAddress networkID

/-- An address parser for the examples: an address is valid when it starts
with `G`. -/
def exampleParseAddress (a : String) : Option Err :=
  if a.data.head? = some 'G' then none else some ErrorBadPublicAddress

/-! ## Theorems -/

/-! ### Engine lemmas -/

theorem DB.Get_Put_self {β : Type} (db : DB β) (k : String) (v : β) :
    DB.Get (DB.Put db k v) k = some v := by
  induction db with
  | nil => simp [DB.Put, DB.Get]
  | cons hd tl ih =>
    obtain ⟨k', v'⟩ := hd
    unfold DB.Put
    by_cases h1 : keyLt k k' = true
    · simp [h1, DB.Get]
    · by_cases h2 : k = k'
      · subst h2
        simp [h1, DB.Get]
      · simp [h1, h2, DB.Get, ih]

theorem DB.Get_Put_other {β : Type} (db : DB β) (k j : String) (v : β) (hne : j ≠ k) :
    DB.Get (DB.Put db k v) j = DB.Get db j := by
  induction db with
  | nil => simp [DB.Put, DB.Get, hne]
  | cons hd tl ih =>
    obtain ⟨k', v'⟩ := hd
    unfold DB.Put
    by_cases h1 : keyLt k k' = true
    · simp [h1, DB.Get, hne]
    · by_cases h2 : k = k'
      · subst h2
        simp [h1, DB.Get, hne]
      · simp [h1, h2, DB.Get, ih]

/-! ### Checked arithmetic -/

theorem Amount.MustAdd_of_le (M a b : Nat) (h : a + b ≤ M) :
    Amount.MustAdd M a b = some (a + b) := by
  have h1 : ¬ (a + b > M) := by omega
  simp [Amount.MustAdd, Amount.Add, h1]

theorem Amount.MustAdd_of_gt (M a b : Nat) (h : M < a + b) :
    Amount.MustAdd M a b = none := by
  simp [Amount.MustAdd, Amount.Add, h]

theorem Amount.MustMult_of_le (M a n : Nat) (h : a * n ≤ M) :
    Amount.MustMult M a n = some (a * n) := by
  have h1 : ¬ (a * n > M) := by omega
  simp [Amount.MustMult, Amount.Mult, h1]

theorem Amount.MustMult_of_gt (M a n : Nat) (h : M < a * n) :
    Amount.MustMult M a n = none := by
  simp [Amount.MustMult, Amount.Mult, h]

theorem foldl_MustAdd (M : Nat) (ops : List Operation) (acc : Nat)
    (h : acc + sumAmounts ops ≤ M) :
    ops.foldl (fun r op => r.bind (fun a => Amount.MustAdd M a op.B.GetAmount)) (some acc)
      = some (acc + sumAmounts ops) := by
  induction ops generalizing acc with
  | nil => simp [sumAmounts]
  | cons op rest ih =>
    simp only [sumAmounts] at h ⊢
    rw [List.foldl_cons, Option.some_bind, Amount.MustAdd_of_le M acc op.B.GetAmount (by omega),
      ih (acc + op.B.GetAmount) (by omega)]
    congr 1
    omega

/-- For every maximum supply and every positive fee, `TotalAmount(true)` of a
single operation moving the whole supply panics. -/
theorem TotalAmount_max_supply_panics (env : Env) (tx : Transaction) (op : Operation)
    (hops : tx.B.Operations = [op]) (hamount : op.B.GetAmount = env.MaximumBalance)
    (hfee : 0 < tx.B.Fee) :
    tx.TotalAmount env true = none := by
  unfold Transaction.TotalAmount
  simp only [hops, List.foldl_cons, List.foldl_nil, Option.some_bind, List.length_singleton,
    if_true]
  by_cases hm : 0 + op.B.GetAmount ≤ env.MaximumBalance
  · rw [Amount.MustAdd_of_le _ _ _ hm, Option.some_bind]
    by_cases hf : tx.B.Fee * 1 ≤ env.MaximumBalance
    · rw [Amount.MustMult_of_le _ _ _ hf, Option.some_bind]
      exact Amount.MustAdd_of_gt _ _ _ (by omega)
    · have : env.MaximumBalance < tx.B.Fee * 1 := by omega
      rw [Amount.MustMult_of_gt _ _ _ this]
      rfl
  · omega

/-! ### The store under the modelled account book -/

theorem DB.Get_Put {β : Type} (db : DB β) (k j : String) (v : β) :
    DB.Get (DB.Put db k v) j = if j = k then some v else DB.Get db j := by
  by_cases h : j = k
  · subst h
    simp [DB.Get_Put_self]
  · simp [h, DB.Get_Put_other db k j v h]

theorem DB.Put_all {β : Type} (p : String × β → Bool) (db : DB β) (k : String) (v : β)
    (hdb : db.all p = true) (hkv : p (k, v) = true) : (DB.Put db k v).all p = true := by
  induction db with
  | nil => simp [DB.Put, hkv]
  | cons hd tl ih =>
    obtain ⟨k', v'⟩ := hd
    simp only [List.all_cons, Bool.and_eq_true] at hdb
    unfold DB.Put
    by_cases h1 : keyLt k k' = true
    · simp [h1, hkv, hdb.1, hdb.2]
    · by_cases h2 : k = k'
      · subst h2
        rw [if_neg h1, if_pos rfl, List.all_cons, Bool.and_eq_true]
        exact ⟨hkv, hdb.2⟩
      · rw [if_neg h1, if_neg h2, List.all_cons, Bool.and_eq_true]
        exact ⟨hdb.1, ih hdb.2⟩

theorem New_toValue (st : LevelDBBackend Record) (k : String) (r : Record) :
    st.New k r.toValue =
      if (DB.Get st.DB k).isSome then
        (some (Err.plain ("key, '" ++ k ++ "' already exists")), st)
      else (none, { DB := DB.Put st.DB k r }) := by
  unfold LevelDBBackend.New
  by_cases h : (DB.Get st.DB k).isSome = true <;>
    simp [Value.encoded, Record.toValue, LevelDBBackend.Has, DB.Has, h]

theorem Set_toValue (st : LevelDBBackend Record) (k : String) (r : Record) :
    st.Set k r.toValue =
      if (DB.Get st.DB k).isSome then (none, { DB := DB.Put st.DB k r })
      else (some (Err.plain ("key, '" ++ k ++ "' does not exists")), st) := by
  unfold LevelDBBackend.Set
  by_cases h : (DB.Get st.DB k).isSome = true <;>
    simp [Record.toValue, LevelDBBackend.Has, DB.Has, h]

theorem BlockAccount.Save_eq (ba : BlockAccount) (st : LevelDBBackend Record) :
    ba.Save st =
      (none, { DB := DB.Put st.DB (GetBlockAccountKey ba.Address) (Record.account ba) }) := by
  unfold BlockAccount.Save
  by_cases h : (DB.Get st.DB (GetBlockAccountKey ba.Address)).isSome = true
  · simp [LevelDBBackend.Has, DB.Has, h, Set_toValue]
  · simp [LevelDBBackend.Has, DB.Has, h, New_toValue]

theorem GetBlockAccount_eq_ok (st : LevelDBBackend Record) (a : String) (ba : BlockAccount) :
    GetBlockAccount st a = Except.ok ba ↔
      DB.Get st.DB (GetBlockAccountKey a) = some (Record.account ba) := by
  unfold GetBlockAccount LevelDBBackend.GetRaw
  cases h : DB.Get st.DB (GetBlockAccountKey a) with
  | none => simp [LevelDBBackend.Has, DB.Has, h]
  | some r => cases r <;> simp [LevelDBBackend.Has, DB.Has, h]

/-- The lookup `GetBlockAccount` reads nothing but the entry under the account key. -/
theorem GetBlockAccount_congr (st st1 : LevelDBBackend Record) (a : String)
    (h : DB.Get st1.DB (GetBlockAccountKey a) = DB.Get st.DB (GetBlockAccountKey a)) :
    GetBlockAccount st1 a = GetBlockAccount st a := by
  unfold GetBlockAccount LevelDBBackend.GetRaw
  simp [LevelDBBackend.Has, DB.Has, h]

/-! ### Keys of different kinds never collide -/

theorem accountKey_inj (a b : String) (h : GetBlockAccountKey a = GetBlockAccountKey b) :
    a = b := by
  have := congrArg String.data h
  simp [GetBlockAccountKey] at this
  exact String.ext this

theorem accountKey_ne_transactionKey (a h : String) :
    GetBlockAccountKey a ≠ GetBlockTransactionKey h := by
  intro he
  have := congrArg String.data he
  simp [GetBlockAccountKey, GetBlockTransactionKey] at this

theorem accountKey_ne_sourceKey (a b t h : String) :
    GetBlockAccountKey a ≠ GetBlockTransactionKeySource b t h := by
  intro he
  have := congrArg String.data he
  simp [GetBlockAccountKey, GetBlockTransactionKeySource] at this

theorem accountKey_ne_operationKey (a h : String) (i : Nat) :
    GetBlockAccountKey a ≠ GetBlockOperationKey h i := by
  intro he
  have := congrArg String.data he
  simp [GetBlockAccountKey, GetBlockOperationKey] at this

/-! ### The shape of a `FinishTransaction` run -/

/-- Either `FinishTransaction` does not return nil and the store is
untouched, or every step succeeded and the store is the committed store
transaction. -/
theorem FinishTransaction_cases {β : Type} (x : Collaborators β) (env : Env)
    (st : LevelDBBackend β) (ballot : Ballot) (tx : Transaction) :
    ((FinishTransaction x env st ballot tx).1 ≠ Returned.nil ∧
      (FinishTransaction x env st ballot tx).2 = st) ∨
    (∃ raw ts ts1 ts2 ba total ba1 ts3,
      x.Serialize ballot = Except.ok raw ∧
      x.OpenTransaction st = Except.ok ts ∧
      x.BlockTransactionSave (x.NewBlockTransactionFromTransaction tx raw) ts = (none, ts1) ∧
      finishOperations x tx ts1 tx.B.Operations = Except.ok ts2 ∧
      x.GetBlockAccount ts2 tx.B.Source = Except.ok ba ∧
      tx.TotalAmount env true = some total ∧
      x.Withdraw ba total (tx.NextSourceCheckpoint env) = (none, ba1) ∧
      x.BlockAccountSave ba1 ts2 = (none, ts3) ∧
      x.Commit ts3 = none ∧
      FinishTransaction x env st ballot tx = (Returned.nil, ts3)) := by
  unfold FinishTransaction LevelDBBackend.Discard
  cases h1 : x.Serialize ballot with
  | error e1 => left; simp
  | ok raw =>
    cases h2 : x.OpenTransaction st with
    | error e2 => left; simp
    | ok ts =>
      rcases h3 : x.BlockTransactionSave (x.NewBlockTransactionFromTransaction tx raw) ts
        with ⟨_ | e3, ts1⟩
      swap
      · left; simp [h3]
      cases h4 : finishOperations x tx ts1 tx.B.Operations with
      | error e4 => left; simp [h3, h4]
      | ok ts2 =>
        cases h5 : x.GetBlockAccount ts2 tx.B.Source with
        | error e5 => left; simp [h3, h4, h5]
        | ok ba =>
          cases h6 : tx.TotalAmount env true with
          | none => left; simp [h3, h4, h5]
          | some total =>
            rcases h7 : x.Withdraw ba total (tx.NextSourceCheckpoint env) with ⟨_ | e7, ba1⟩
            swap
            · left; simp [h3, h4, h5, h7]
            rcases h8 : x.BlockAccountSave ba1 ts2 with ⟨_ | e8, ts3⟩
            swap
            · left; simp [h3, h4, h5, h7, h8]
            cases h9 : x.Commit ts3 with
            | some e9 => left; simp [h3, h4, h5, h7, h8, h9]
            | none =>
              right
              exact ⟨raw, ts, ts1, ts2, ba, total, ba1, ts3, rfl, rfl, h3, h4, h5, rfl, h7, h8,
                h9, by simp [h3, h4, h5, h7, h8, h9]⟩

/-! ### What the modelled helpers write -/

theorem accountsKeyed_Get (st : LevelDBBackend Record) (k : String) (ba : BlockAccount)
    (hk : accountsKeyed st = true) (h : DB.Get st.DB k = some (Record.account ba)) :
    k = GetBlockAccountKey ba.Address := by
  obtain ⟨db⟩ := st
  unfold accountsKeyed at hk
  simp only at hk h
  induction db with
  | nil => simp [DB.Get] at h
  | cons hd tl ih =>
    obtain ⟨k', v'⟩ := hd
    simp only [List.all_cons, Bool.and_eq_true] at hk
    unfold DB.Get at h
    by_cases hkk : k = k'
    · subst hkk
      simp only [if_true, Option.some.injEq] at h
      subst h
      simpa using hk.1
    · simp only [hkk, if_false] at h
      exact ih hk.2 h

theorem accountsKeyed_Put_account (st : LevelDBBackend Record) (ba : BlockAccount)
    (hk : accountsKeyed st = true) :
    accountsKeyed { DB := DB.Put st.DB (GetBlockAccountKey ba.Address) (Record.account ba) }
      = true := by
  unfold accountsKeyed at hk ⊢
  exact DB.Put_all _ st.DB _ _ hk (by simp)

theorem accountsKeyed_Put_other (st : LevelDBBackend Record) (k : String) (r : Record)
    (hr : ∀ ba, r ≠ Record.account ba) (hk : accountsKeyed st = true) :
    accountsKeyed { DB := DB.Put st.DB k r } = true := by
  unfold accountsKeyed at hk ⊢
  refine DB.Put_all _ st.DB _ _ hk ?_
  cases r with
  | account ba => exact absurd rfl (hr ba)
  | blockTransaction bt => rfl
  | blockOperation bo => rfl
  | empty => rfl

theorem BlockTransaction.Save_ok (now : String) (bt : BlockTransaction)
    (st st1 : LevelDBBackend Record) (h : bt.Save now st = (none, st1)) :
    st1.DB =
      DB.Put
        (DB.Put st.DB (GetBlockTransactionKey bt.hash)
          (Record.blockTransaction { bt with saved_at := now }))
        (GetBlockTransactionKeySource bt.source now bt.hash) Record.empty := by
  unfold BlockTransaction.Save at h
  by_cases h1 : (DB.Get st.DB (GetBlockTransactionKey bt.hash)).isSome = true
  · simp [New_toValue, h1] at h
  · simp only [New_toValue, h1] at h
    by_cases h2 : (DB.Get (DB.Put st.DB (GetBlockTransactionKey bt.hash)
        (Record.blockTransaction { bt with saved_at := now }))
        (GetBlockTransactionKeySource bt.source now bt.hash)).isSome = true
    · simp [h2] at h
    · simp [h2] at h
      rw [← h]

theorem BlockTransaction.Save_exists (now : String) (bt : BlockTransaction)
    (st : LevelDBBackend Record)
    (h : (DB.Get st.DB (GetBlockTransactionKey bt.hash)).isSome = true) :
    bt.Save now st = (some ErrorAlreadySaved, st) := by
  unfold BlockTransaction.Save
  simp [New_toValue, h]

theorem FinishOperation_ok (env : Env) (st : LevelDBBackend Record) (tx : Transaction)
    (op : Operation) (st1 : LevelDBBackend Record)
    (h : FinishOperation env st tx op = (none, st1)) :
    ∃ ba : BlockAccount,
      (ba.Address = op.B.TargetAddress ∨
        ∃ ba0, GetBlockAccount st op.B.TargetAddress = Except.ok ba0 ∧
          ba.Address = ba0.Address) ∧
      st1.DB =
        DB.Put (DB.Put st.DB (GetBlockAccountKey ba.Address) (Record.account ba))
          (GetBlockOperationKey tx.GetHash (tx.B.Operations.indexOf op))
          (Record.blockOperation
            { tx_hash := tx.GetHash, op_index := tx.B.Operations.indexOf op,
              operation := op }) := by
  unfold FinishOperation at h
  simp only [BlockAccount.Save_eq, New_toValue] at h
  generalize htarget :
    (match GetBlockAccount st op.B.TargetAddress with
      | Except.ok ba => ba
      | Except.error _ => NewBlockAccount op.B.TargetAddress 0 (tx.NextTargetCheckpoint env))
      = target at h
  have haddr : target.Address = op.B.TargetAddress ∨
      ∃ ba0, GetBlockAccount st op.B.TargetAddress = Except.ok ba0 ∧
        target.Address = ba0.Address := by
    cases hg : GetBlockAccount st op.B.TargetAddress with
    | error e =>
      rw [hg] at htarget
      left
      rw [← htarget]
      rfl
    | ok ba0 =>
      rw [hg] at htarget
      right
      exact ⟨ba0, rfl, by rw [← htarget]⟩
  unfold BlockAccount.Deposit at h
  cases hadd : Amount.Add env.MaximumBalance target.Balance op.B.GetAmount with
  | error e => simp [hadd] at h
  | ok v =>
    simp only [hadd] at h
    split at h
    · simp at h
    · refine ⟨{ target with Balance := v, Checkpoint := tx.NextTargetCheckpoint env }, haddr, ?_⟩
      simp only [Prod.mk.injEq, true_and] at h
      rw [← h]


theorem FinishOperation_frame (env : Env) (st : LevelDBBackend Record) (tx : Transaction)
    (op : Operation) (st1 : LevelDBBackend Record) (src : String)
    (hk : accountsKeyed st = true) (hne : op.B.TargetAddress ≠ src)
    (h : FinishOperation env st tx op = (none, st1)) :
    accountsKeyed st1 = true ∧
      DB.Get st1.DB (GetBlockAccountKey src) = DB.Get st.DB (GetBlockAccountKey src) := by
  obtain ⟨ba, haddr, hdb⟩ := FinishOperation_ok env st tx op st1 h
  have hba : ba.Address = op.B.TargetAddress := by
    rcases haddr with h1 | ⟨ba0, hg, h1⟩
    · exact h1
    · rw [GetBlockAccount_eq_ok] at hg
      have := accountsKeyed_Get st _ ba0 hk hg
      rw [h1]
      exact (accountKey_inj _ _ this).symm
  obtain ⟨db1⟩ := st1
  simp only at hdb
  subst hdb
  constructor
  · exact accountsKeyed_Put_other _ _ _ (by intro b hb; cases hb)
      (accountsKeyed_Put_account st ba hk)
  · have h1 : GetBlockAccountKey src ≠ GetBlockOperationKey tx.GetHash
        (tx.B.Operations.indexOf op) := accountKey_ne_operationKey _ _ _
    have h2 : GetBlockAccountKey src ≠ GetBlockAccountKey ba.Address := by
      intro he
      exact hne ((accountKey_inj _ _ he).trans hba).symm
    simp only [DB.Get_Put, h1, h2, if_false]

theorem FinishOperation_keeps_keys (env : Env) (st : LevelDBBackend Record) (tx : Transaction)
    (op : Operation) (st1 : LevelDBBackend Record) (j : String)
    (hj : (DB.Get st.DB j).isSome = true)
    (h : FinishOperation env st tx op = (none, st1)) :
    (DB.Get st1.DB j).isSome = true := by
  obtain ⟨ba, _, hdb⟩ := FinishOperation_ok env st tx op st1 h
  rw [hdb]
  simp only [DB.Get_Put]
  split
  · rfl
  · split
    · rfl
    · exact hj

theorem finishOperations_frame (env : Env) (now : String) (serialize : Ballot → Except Err Bytes)
    (tx : Transaction) (src : String) (ops : List Operation)
    (st st1 : LevelDBBackend Record)
    (hk : accountsKeyed st = true) (hne : ∀ op ∈ ops, op.B.TargetAddress ≠ src)
    (h : finishOperations (specCollaborators env now serialize) tx st ops = Except.ok st1) :
    accountsKeyed st1 = true ∧
      DB.Get st1.DB (GetBlockAccountKey src) = DB.Get st.DB (GetBlockAccountKey src) := by
  induction ops generalizing st with
  | nil =>
    simp only [finishOperations, Except.ok.injEq] at h
    subst h
    exact ⟨hk, rfl⟩
  | cons op rest ih =>
    unfold finishOperations at h
    rcases hop : FinishOperation env st tx op with ⟨_ | e, st2⟩
    · have hop1 : (specCollaborators env now serialize).FinishOperation st tx op
          = (none, st2) := hop
      simp only [hop1] at h
      obtain ⟨hk2, hg2⟩ := FinishOperation_frame env st tx op st2 src hk
        (hne op (List.mem_cons_self _ _)) hop
      obtain ⟨hk1, hg1⟩ := ih st2 hk2 (fun o ho => hne o (List.mem_cons_of_mem _ ho)) h
      exact ⟨hk1, hg1.trans hg2⟩
    · have hop1 : (specCollaborators env now serialize).FinishOperation st tx op
          = (some e, st2) := hop
      simp [hop1] at h

theorem finishOperations_keeps_keys (env : Env) (now : String)
    (serialize : Ballot → Except Err Bytes) (tx : Transaction) (j : String)
    (ops : List Operation) (st st1 : LevelDBBackend Record)
    (hj : (DB.Get st.DB j).isSome = true)
    (h : finishOperations (specCollaborators env now serialize) tx st ops = Except.ok st1) :
    (DB.Get st1.DB j).isSome = true := by
  induction ops generalizing st with
  | nil =>
    simp only [finishOperations, Except.ok.injEq] at h
    subst h
    exact hj
  | cons op rest ih =>
    unfold finishOperations at h
    rcases hop : FinishOperation env st tx op with ⟨_ | e, st2⟩
    · have hop1 : (specCollaborators env now serialize).FinishOperation st tx op
          = (none, st2) := hop
      simp only [hop1] at h
      exact ih st2 (FinishOperation_keeps_keys env st tx op st2 j hj hop) h
    · have hop1 : (specCollaborators env now serialize).FinishOperation st tx op
          = (some e, st2) := hop
      simp [hop1] at h

/-! ### The keying of account records is an invariant of externalization -/

theorem FinishOperation_accountsKeyed (env : Env) (st : LevelDBBackend Record)
    (tx : Transaction) (op : Operation) (st1 : LevelDBBackend Record)
    (hk : accountsKeyed st = true) (h : FinishOperation env st tx op = (none, st1)) :
    accountsKeyed st1 = true := by
  obtain ⟨ba, _, hdb⟩ := FinishOperation_ok env st tx op st1 h
  obtain ⟨db1⟩ := st1
  simp only at hdb
  subst hdb
  exact accountsKeyed_Put_other _ _ _ (by intro b hb; cases hb)
    (accountsKeyed_Put_account st ba hk)

theorem finishOperations_accountsKeyed (env : Env) (now : String)
    (serialize : Ballot → Except Err Bytes) (tx : Transaction) (ops : List Operation)
    (st st1 : LevelDBBackend Record) (hk : accountsKeyed st = true)
    (h : finishOperations (specCollaborators env now serialize) tx st ops = Except.ok st1) :
    accountsKeyed st1 = true := by
  induction ops generalizing st with
  | nil =>
    simp only [finishOperations, Except.ok.injEq] at h
    subst h
    exact hk
  | cons op rest ih =>
    unfold finishOperations at h
    rcases hop : FinishOperation env st tx op with ⟨_ | e, st2⟩
    · have hop1 : (specCollaborators env now serialize).FinishOperation st tx op
          = (none, st2) := hop
      simp only [hop1] at h
      exact ih st2 (FinishOperation_accountsKeyed env st tx op st2 hk hop) h
    · have hop1 : (specCollaborators env now serialize).FinishOperation st tx op
          = (some e, st2) := hop
      simp [hop1] at h

/-- Whatever `FinishTransaction` returns, a store whose account records are
kept under the keys of their own addresses stays such a store. -/
theorem FinishTransaction_accountsKeyed (env : Env) (now : String)
    (serialize : Ballot → Except Err Bytes) (st : LevelDBBackend Record) (ballot : Ballot)
    (tx : Transaction) (hkeyed : accountsKeyed st = true) :
    accountsKeyed
      (FinishTransaction (specCollaborators env now serialize) env st ballot tx).2 = true := by
  rcases FinishTransaction_cases (specCollaborators env now serialize) env st ballot tx with
    ⟨_, hst⟩ | ⟨raw, ts, ts1, ts2, ba, total, ba1, ts3, _, h2, h3, h4, _, _, _, h8, _, hr⟩
  · rw [hst]
    exact hkeyed
  · rw [hr]
    have hts : ts = st := by
      have : Except.ok st = Except.ok ts := h2
      exact (Except.ok.inj this).symm
    subst hts
    have h3a := BlockTransaction.Save_ok now _ ts ts1 h3
    have hk1 : accountsKeyed ts1 = true := by
      obtain ⟨db1⟩ := ts1
      simp only at h3a
      subst h3a
      exact accountsKeyed_Put_other _ _ _ (by intro b hb; cases hb)
        (accountsKeyed_Put_other ts _ _ (by intro b hb; cases hb) hkeyed)
    have hk2 := finishOperations_accountsKeyed env now serialize tx tx.B.Operations ts1 ts2
      hk1 h4
    have h8a : ba1.Save ts2 = (none, ts3) := h8
    rw [BlockAccount.Save_eq] at h8a
    simp only [Prod.mk.injEq, true_and] at h8a
    rw [← h8a]
    exact accountsKeyed_Put_account ts2 ba1 hk2

/-! ### C1: a failed externalization leaves the store as it was -/

/-- C1: whatever the collaborators do, if `FinishTransaction` returns an
error then the store of the caller is exactly the store before the call. -/
theorem FinishTransaction_error_store_unchanged {β : Type} (x : Collaborators β) (env : Env)
    (st : LevelDBBackend β) (ballot : Ballot) (tx : Transaction) (e : Err)
    (h : (FinishTransaction x env st ballot tx).1 = Returned.error e) :
    (FinishTransaction x env st ballot tx).2 = st := by
  rcases FinishTransaction_cases x env st ballot tx with ⟨_, h2⟩ | ⟨_, _, _, _, _, _, _, _, _, _,
    _, _, _, _, _, _, _, hr⟩
  · exact h2
  · rw [hr] at h
    cases h

/-- C1 at a payment of 100 from an account that holds 50: the error is
balance-under-zero and the store is the one passed in, without the deposit
made inside the store transaction. -/
theorem FinishTransaction_error_store_unchanged_witness :
    (FinishTransaction exampleCollaborators exampleEnv (exampleStore 50) (exampleBallot "h1")
        (exampleTx "h1" "A" "u-u" 1 [examplePayment "B" 100])).1
      = Returned.error ErrorAccountBalanceUnderZero ∧
    (FinishTransaction exampleCollaborators exampleEnv (exampleStore 50) (exampleBallot "h1")
        (exampleTx "h1" "A" "u-u" 1 [examplePayment "B" 100])).2 = exampleStore 50 :=
  ⟨by decide,
   FinishTransaction_error_store_unchanged exampleCollaborators exampleEnv (exampleStore 50)
     (exampleBallot "h1") (exampleTx "h1" "A" "u-u" 1 [examplePayment "B" 100])
     ErrorAccountBalanceUnderZero (by decide)⟩

/-! ### C2: the source account after a successful externalization -/

/-- C2 as stated fails: `A` holds 500 and pays 100 to itself with fee 1.
`FinishTransaction` succeeds, `TotalAmount(true)` is 101, and the stored
balance of `A` afterwards is 499 (the deposit is read back inside the store
transaction before the withdrawal), not 500 - 101. -/
theorem FinishTransaction_self_payment_counterexample :
    (FinishTransaction exampleCollaborators exampleEnv (exampleStore 500) (exampleBallot "h1")
        (exampleTx "h1" "A" "u-u" 1 [examplePayment "A" 100])).1 = Returned.nil ∧
    (exampleTx "h1" "A" "u-u" 1 [examplePayment "A" 100]).TotalAmount exampleEnv true
      = some 101 ∧
    DB.Get (FinishTransaction exampleCollaborators exampleEnv (exampleStore 500)
        (exampleBallot "h1") (exampleTx "h1" "A" "u-u" 1 [examplePayment "A" 100])).2.DB
        (GetBlockAccountKey "A")
      = some (Record.account { Address := "A", Balance := 499, Checkpoint := "h1-h1" }) ∧
    sourceSettled exampleEnv (exampleStore 500)
      (FinishTransaction exampleCollaborators exampleEnv (exampleStore 500) (exampleBallot "h1")
        (exampleTx "h1" "A" "u-u" 1 [examplePayment "A" 100])).2
      (exampleTx "h1" "A" "u-u" 1 [examplePayment "A" 100]) = false := by
  decide

/-- C2 (amended): in a store whose account records are kept under the keys
of their own addresses, if no operation of `T` names the source address as
its target and `FinishTransaction` succeeds, then the source has an account
before and after, its balance before is its balance after plus
`T.TotalAmount(true)`, and its checkpoint after is
`MakeCheckpoint(T.hash, T.hash)`. -/
theorem FinishTransaction_source_settled (env : Env) (now : String)
    (serialize : Ballot → Except Err Bytes) (st : LevelDBBackend Record) (ballot : Ballot)
    (tx : Transaction)
    (hkeyed : accountsKeyed st = true)
    (hself : ∀ op ∈ tx.B.Operations, op.B.TargetAddress ≠ tx.B.Source)
    (hok : (FinishTransaction (specCollaborators env now serialize) env st ballot tx).1
      = Returned.nil) :
    sourceSettled env st
      (FinishTransaction (specCollaborators env now serialize) env st ballot tx).2 tx
      = true := by
  rcases FinishTransaction_cases (specCollaborators env now serialize) env st ballot tx with
    ⟨hne, _⟩ | ⟨raw, ts, ts1, ts2, ba, total, ba1, ts3, _, h2, h3, h4, h5, h6, h7, h8, _, hr⟩
  · exact absurd hok hne
  · rw [hr]
    have hts : ts = st := by
      have : Except.ok st = Except.ok ts := h2
      exact (Except.ok.inj this).symm
    subst hts
    -- the block-transaction save leaves the account records alone
    have h3a := BlockTransaction.Save_ok now _ ts ts1 h3
    have hk1 : accountsKeyed ts1 = true := by
      obtain ⟨db1⟩ := ts1
      simp only at h3a
      subst h3a
      exact accountsKeyed_Put_other _ _ _ (by intro b hb; cases hb)
        (accountsKeyed_Put_other ts _ _ (by intro b hb; cases hb) hkeyed)
    have hg1 : DB.Get ts1.DB (GetBlockAccountKey tx.B.Source)
        = DB.Get ts.DB (GetBlockAccountKey tx.B.Source) := by
      rw [h3a]
      simp only [DB.Get_Put, accountKey_ne_sourceKey, accountKey_ne_transactionKey, if_false]
    -- so do the operations, none of which targets the source
    obtain ⟨hk2, hg2⟩ := finishOperations_frame env now serialize tx tx.B.Source
      tx.B.Operations ts1 ts2 hk1 hself h4
    have h5a : GetBlockAccount ts2 tx.B.Source = Except.ok ba := h5
    have hbefore : GetBlockAccount ts tx.B.Source = Except.ok ba := by
      rw [← GetBlockAccount_congr ts ts2 tx.B.Source (hg2.trans hg1)]
      exact h5a
    have haddr : ba.Address = tx.B.Source := by
      rw [GetBlockAccount_eq_ok] at h5a
      exact (accountKey_inj _ _ (accountsKeyed_Get ts2 _ ba hk2 h5a)).symm
    -- the withdrawal
    have h7a : BlockAccount.Withdraw ba total (tx.NextSourceCheckpoint env) = (none, ba1) := h7
    unfold BlockAccount.Withdraw at h7a
    by_cases hgt : total > ba.Balance
    · simp [hgt] at h7a
    · simp only [hgt, if_false, Prod.mk.injEq, true_and] at h7a
      have h8a : ba1.Save ts2 = (none, ts3) := h8
      rw [BlockAccount.Save_eq] at h8a
      simp only [Prod.mk.injEq, true_and] at h8a
      have hafter : GetBlockAccount ts3 tx.B.Source = Except.ok ba1 := by
        rw [GetBlockAccount_eq_ok, ← h8a]
        have : ba1.Address = tx.B.Source := by rw [← h7a]; exact haddr
        simp only [this, DB.Get_Put_self]
      unfold sourceSettled
      simp only [hbefore, hafter, h6]
      rw [← h7a]
      simp only [Bool.and_eq_true, beq_iff_eq]
      refine ⟨?_, rfl⟩
      omega

/-- C2 (amended) at scenario 1 of the specification: `A` holds 1000 and
creates `B` with 100 at fee 1. -/
theorem FinishTransaction_source_settled_witness :
    sourceSettled exampleEnv (exampleStore 1000)
      (FinishTransaction (specCollaborators exampleEnv "t1" exampleSerialize) exampleEnv
        (exampleStore 1000) (exampleBallot "h1")
        (exampleTx "h1" "A" "u-u" 1 [exampleCreateAccount "B" 100])).2
      (exampleTx "h1" "A" "u-u" 1 [exampleCreateAccount "B" 100]) = true :=
  FinishTransaction_source_settled exampleEnv "t1" exampleSerialize (exampleStore 1000)
    (exampleBallot "h1") (exampleTx "h1" "A" "u-u" 1 [exampleCreateAccount "B" 100])
    (by decide) (by decide) (by decide)

/-! ### C3: retrying a committed externalization -/

/-- C3: if `FinishTransaction(T)` has committed, a second call with the same
`T` returns the already-saved error and leaves the store exactly as the
first call left it: no second withdraw, deposit or block-transaction.  This
holds for the same ballot at any later time, and for any other ballot that
serializes. -/
theorem FinishTransaction_retry (env : Env) (now : String)
    (serialize : Ballot → Except Err Bytes) (st : LevelDBBackend Record) (ballot : Ballot)
    (tx : Transaction)
    (hok : (FinishTransaction (specCollaborators env now serialize) env st ballot tx).1
      = Returned.nil) :
    (∀ now2 : String,
      FinishTransaction (specCollaborators env now2 serialize) env
          (FinishTransaction (specCollaborators env now serialize) env st ballot tx).2 ballot tx
        = (Returned.error ErrorAlreadySaved,
            (FinishTransaction (specCollaborators env now serialize) env st ballot tx).2)) ∧
    (∀ (now2 : String) (serialize2 : Ballot → Except Err Bytes) (ballot2 : Ballot)
        (raw2 : Bytes), serialize2 ballot2 = Except.ok raw2 →
      FinishTransaction (specCollaborators env now2 serialize2) env
          (FinishTransaction (specCollaborators env now serialize) env st ballot tx).2 ballot2 tx
        = (Returned.error ErrorAlreadySaved,
            (FinishTransaction (specCollaborators env now serialize) env st ballot tx).2)) ∧
    ErrorAlreadySaved.Code = some 124 := by
  rcases FinishTransaction_cases (specCollaborators env now serialize) env st ballot tx with
    ⟨hne, _⟩ | ⟨raw, ts, ts1, ts2, ba, total, ba1, ts3, h1, h2, h3, h4, _, _, _, h8, _, hr⟩
  · exact absurd hok hne
  · rw [hr]
    have hkey1 : (DB.Get ts1.DB (GetBlockTransactionKey tx.H.Hash)).isSome = true := by
      rw [BlockTransaction.Save_ok now _ ts ts1 h3]
      simp only [DB.Get_Put, NewBlockTransactionFromTransaction]
      split
      · rfl
      · simp only [specCollaborators, NewBlockTransactionFromTransaction, if_true]
        rfl
    have hkey2 := finishOperations_keeps_keys env now serialize tx _ tx.B.Operations ts1 ts2
      hkey1 h4
    have h8a : ba1.Save ts2 = (none, ts3) := h8
    rw [BlockAccount.Save_eq] at h8a
    simp only [Prod.mk.injEq, true_and] at h8a
    have hkey3 : (DB.Get ts3.DB (GetBlockTransactionKey tx.H.Hash)).isSome = true := by
      rw [← h8a]
      simp only [DB.Get_Put]
      split
      · rfl
      · exact hkey2
    have hany : ∀ (now2 : String) (serialize2 : Ballot → Except Err Bytes) (ballot2 : Ballot)
        (raw2 : Bytes), serialize2 ballot2 = Except.ok raw2 →
        FinishTransaction (specCollaborators env now2 serialize2) env ts3 ballot2 tx
          = (Returned.error ErrorAlreadySaved, ts3) := by
      intro now2 serialize2 ballot2 raw2 hser
      unfold FinishTransaction LevelDBBackend.Discard
      have hs : (specCollaborators env now2 serialize2).Serialize ballot2 = Except.ok raw2 :=
        hser
      have ho : (specCollaborators env now2 serialize2).OpenTransaction ts3 = Except.ok ts3 :=
        rfl
      have hb : (specCollaborators env now2 serialize2).BlockTransactionSave
          ((specCollaborators env now2 serialize2).NewBlockTransactionFromTransaction tx raw2)
          ts3 = (some ErrorAlreadySaved, ts3) :=
        BlockTransaction.Save_exists now2 _ ts3 hkey3
      simp only [hs, ho, hb]
    exact ⟨fun now2 => hany now2 serialize ballot raw h1, hany, rfl⟩

/-- C3 at scenario 1 of the specification (`A` holds 1000 and creates `B`
with 100 at fee 1), retried at a later time. -/
theorem FinishTransaction_retry_witness :
    FinishTransaction (specCollaborators exampleEnv "t2" exampleSerialize) exampleEnv
        (FinishTransaction (specCollaborators exampleEnv "t1" exampleSerialize) exampleEnv
          (exampleStore 1000) (exampleBallot "h1")
          (exampleTx "h1" "A" "u-u" 1 [exampleCreateAccount "B" 100])).2
        (exampleBallot "h1") (exampleTx "h1" "A" "u-u" 1 [exampleCreateAccount "B" 100])
      = (Returned.error ErrorAlreadySaved,
          (FinishTransaction (specCollaborators exampleEnv "t1" exampleSerialize) exampleEnv
            (exampleStore 1000) (exampleBallot "h1")
            (exampleTx "h1" "A" "u-u" 1 [exampleCreateAccount "B" 100])).2) :=
  (FinishTransaction_retry exampleEnv "t1" exampleSerialize (exampleStore 1000)
    (exampleBallot "h1") (exampleTx "h1" "A" "u-u" 1 [exampleCreateAccount "B" 100])
    (by decide)).1 "t2"

/-! ### C4: a missing source account -/

/-- Whatever the collaborators do: when every step before it succeeds and
the lookup of the source account inside the store transaction fails,
`FinishTransaction` returns `ErrorBlockAccountDoesNotExists` and the store
is the store before the call. -/
theorem FinishTransaction_lookup_fails {β : Type} (x : Collaborators β) (env : Env)
    (st : LevelDBBackend β) (ballot : Ballot) (tx : Transaction)
    (raw : Bytes) (ts ts1 ts2 : LevelDBBackend β) (e : Err)
    (h1 : x.Serialize ballot = Except.ok raw)
    (h2 : x.OpenTransaction st = Except.ok ts)
    (h3 : x.BlockTransactionSave (x.NewBlockTransactionFromTransaction tx raw) ts = (none, ts1))
    (h4 : finishOperations x tx ts1 tx.B.Operations = Except.ok ts2)
    (h5 : x.GetBlockAccount ts2 tx.B.Source = Except.error e) :
    FinishTransaction x env st ballot tx
      = (Returned.error ErrorBlockAccountDoesNotExists, st) := by
  unfold FinishTransaction LevelDBBackend.Discard
  simp [h1, h2, h3, h4, h5]

/-- C4 as stated fails, in four ways.  In the empty store the source `A` has
no account record, yet a transaction from `A` whose operation creates
account `A` itself finds that account inside the store transaction and is
refused with balance-under-zero.  In a store that holds no account of `Z`
but already holds a record under the block-transaction key of `h1`, the
transaction `h1` from `Z` is refused at the block-transaction save with
already-saved.  A payment from `Z` of more than the maximum supply is
refused at the deposit with max-balance-reached.  And when the ballot does
not serialize, the serializer's error is returned.  None of the four returns
account-does-not-exist. -/
theorem FinishTransaction_source_missing_counterexample :
    (DB.Get (LevelDBBackend.mk ([] : DB Record)).DB (GetBlockAccountKey "A") = none ∧
      (FinishTransaction exampleCollaborators exampleEnv ⟨[]⟩ (exampleBallot "h1")
          (exampleTx "h1" "A" "u-u" 1 [exampleCreateAccount "A" 100])).1
        = Returned.error ErrorAccountBalanceUnderZero) ∧
    (DB.Get (LevelDBBackend.mk [("bt:h1", Record.empty)]).DB (GetBlockAccountKey "Z") = none ∧
      (FinishTransaction exampleCollaborators exampleEnv ⟨[("bt:h1", Record.empty)]⟩
          (exampleBallot "h1") (exampleTx "h1" "Z" "u-u" 1 [examplePayment "B" 100])).1
        = Returned.error ErrorAlreadySaved) ∧
    (DB.Get (exampleStore 1000).DB (GetBlockAccountKey "Z") = none ∧
      (FinishTransaction exampleCollaborators exampleEnv (exampleStore 1000)
          (exampleBallot "h1") (exampleTx "h1" "Z" "u-u" 1 [examplePayment "B" 2000])).1
        = Returned.error ErrorMaximumBalanceReached) ∧
    (FinishTransaction
        (specCollaborators exampleEnv "t1" (fun _ => Except.error (Err.plain "json: error")))
        exampleEnv (exampleStore 1000) (exampleBallot "h1")
        (exampleTx "h1" "Z" "u-u" 1 [examplePayment "B" 100])).1
      = Returned.error (Err.plain "json: error") ∧
    Returned.error ErrorAccountBalanceUnderZero
      ≠ Returned.error ErrorBlockAccountDoesNotExists ∧
    Returned.error ErrorAlreadySaved ≠ Returned.error ErrorBlockAccountDoesNotExists ∧
    Returned.error ErrorMaximumBalanceReached
      ≠ Returned.error ErrorBlockAccountDoesNotExists ∧
    Returned.error (Err.plain "json: error")
      ≠ Returned.error ErrorBlockAccountDoesNotExists := by
  decide

/-- C4 (amended): in a store whose account records are kept under the keys
of their own addresses and which holds no record under the key of the
source address, for a transaction none of whose operations names the source
as its target: when the ballot serializes and the block-transaction save and
every operation succeed, `FinishTransaction` returns
`ErrorBlockAccountDoesNotExists` (code 128) and the store is exactly the
store before the call, the block-transaction and the deposits written
inside the store transaction included. -/
theorem FinishTransaction_source_absent (env : Env) (now : String)
    (serialize : Ballot → Except Err Bytes) (st : LevelDBBackend Record) (ballot : Ballot)
    (tx : Transaction) (raw : Bytes) (ts1 ts2 : LevelDBBackend Record)
    (hkeyed : accountsKeyed st = true)
    (habsent : DB.Get st.DB (GetBlockAccountKey tx.B.Source) = none)
    (hself : ∀ op ∈ tx.B.Operations, op.B.TargetAddress ≠ tx.B.Source)
    (h1 : serialize ballot = Except.ok raw)
    (h3 : (NewBlockTransactionFromTransaction tx raw).Save now st = (none, ts1))
    (h4 : finishOperations (specCollaborators env now serialize) tx ts1 tx.B.Operations
      = Except.ok ts2) :
    FinishTransaction (specCollaborators env now serialize) env st ballot tx
      = (Returned.error ErrorBlockAccountDoesNotExists, st) ∧
    ErrorBlockAccountDoesNotExists.Code = some 128 ∧
    (DB.Get ts1.DB (GetBlockTransactionKey tx.H.Hash)).isSome = true := by
  have h3a := BlockTransaction.Save_ok now _ st ts1 h3
  have hk1 : accountsKeyed ts1 = true := by
    obtain ⟨db1⟩ := ts1
    simp only at h3a
    subst h3a
    exact accountsKeyed_Put_other _ _ _ (by intro b hb; cases hb)
      (accountsKeyed_Put_other st _ _ (by intro b hb; cases hb) hkeyed)
  have hg1 : DB.Get ts1.DB (GetBlockAccountKey tx.B.Source)
      = DB.Get st.DB (GetBlockAccountKey tx.B.Source) := by
    rw [h3a]
    simp only [DB.Get_Put, accountKey_ne_sourceKey, accountKey_ne_transactionKey, if_false]
  obtain ⟨_, hg2⟩ := finishOperations_frame env now serialize tx tx.B.Source
    tx.B.Operations ts1 ts2 hk1 hself h4
  have hlookup : ∃ e, GetBlockAccount ts2 tx.B.Source = Except.error e := by
    cases hg : GetBlockAccount ts2 tx.B.Source with
    | error e => exact ⟨e, rfl⟩
    | ok ba =>
      rw [GetBlockAccount_eq_ok, hg2, hg1, habsent] at hg
      cases hg
  obtain ⟨e, he⟩ := hlookup
  refine ⟨FinishTransaction_lookup_fails (specCollaborators env now serialize) env st ballot tx
    raw st ts1 ts2 e h1 rfl h3 h4 he, rfl, ?_⟩
  rw [h3a]
  simp only [DB.Get_Put, NewBlockTransactionFromTransaction]
  split
  · rfl
  · simp only [if_true]
    rfl

/-- C4 (amended) at a payment to `B` from `Z`, which has no account in a
store that holds only `A`. -/
theorem FinishTransaction_source_absent_witness :
    FinishTransaction (specCollaborators exampleEnv "t1" exampleSerialize) exampleEnv
        (exampleStore 1000) (exampleBallot "h1")
        (exampleTx "h1" "Z" "u-u" 1 [examplePayment "B" 100])
      = (Returned.error ErrorBlockAccountDoesNotExists, exampleStore 1000) :=
  (FinishTransaction_source_absent exampleEnv "t1" exampleSerialize (exampleStore 1000)
    (exampleBallot "h1") (exampleTx "h1" "Z" "u-u" 1 [examplePayment "B" 100])
    _ _ _ (by decide) (by decide) (by decide) rfl rfl rfl).1

/-! ### C5: a payment of the whole supply -/

/-- C5 (the code at the failing input): with maximum supply 1000 and base
fee 1, externalizing `Payment(B, 1000)` from `A`, which holds 1, does not
return balance-under-zero: `TotalAmount(true)` panics in `MustAdd`, so
`Withdraw` is never called.  The store is left as it was. -/
theorem FinishTransaction_max_supply_panics :
    (exampleTx "h1" "A" "u-u" exampleEnv.BaseFee
        [examplePayment "B" exampleEnv.MaximumBalance]).TotalAmount exampleEnv true = none ∧
    FinishTransaction exampleCollaborators exampleEnv exampleStoreAB (exampleBallot "h1")
        (exampleTx "h1" "A" "u-u" exampleEnv.BaseFee
          [examplePayment "B" exampleEnv.MaximumBalance])
      = (Returned.panic, exampleStoreAB) ∧
    (FinishTransaction exampleCollaborators exampleEnv exampleStoreAB (exampleBallot "h1")
        (exampleTx "h1" "A" "u-u" exampleEnv.BaseFee
          [examplePayment "B" exampleEnv.MaximumBalance])).1
      ≠ Returned.error ErrorAccountBalanceUnderZero := by
  decide

/-! ### C6: checkpoint validity -/

/-- C6 as stated fails: a transaction whose checkpoint `"genesis"` has no
dash is valid against the identical string `"genesis"`, although neither
string parses, so no `subtracted` halves exist to be equal. -/
theorem IsValidCheckpoint_unparsed_counterexample :
    ¬ ((exampleTx "h" "A" "genesis" 1 []).IsValidCheckpoint exampleEnv "genesis" = true ↔
        subtractedHalvesEqual exampleEnv
          (exampleTx "h" "A" "genesis" 1 []).B.Checkpoint "genesis" = true) := by
  decide

/-- C6 (amended): `IsValidCheckpoint c` is true exactly when the
transaction checkpoint and `c` are the same string, or both parse and their
`subtracted` halves are equal; in particular, when both strings parse it is
true iff the `subtracted` halves are equal. -/
theorem IsValidCheckpoint_iff (env : Env) (tx : Transaction) (c : String) :
    (tx.IsValidCheckpoint env c = true ↔
      (tx.B.Checkpoint = c ∨ subtractedHalvesEqual env tx.B.Checkpoint c = true)) ∧
    (∀ p q : String × String,
      env.ParseCheckpoint tx.B.Checkpoint = Except.ok p →
      env.ParseCheckpoint c = Except.ok q →
      (tx.IsValidCheckpoint env c = true ↔ p.1 = q.1)) := by
  constructor
  · unfold Transaction.IsValidCheckpoint subtractedHalvesEqual
    by_cases h : tx.B.Checkpoint = c
    · simp [h]
    · simp only [h, if_false, false_or]
      cases hc : env.ParseCheckpoint c with
      | error e =>
        cases ht : env.ParseCheckpoint tx.B.Checkpoint <;> simp
      | ok q =>
        cases ht : env.ParseCheckpoint tx.B.Checkpoint with
        | error e => simp
        | ok p =>
          simp only [beq_iff_eq]
          exact ⟨fun h => h.symm, fun h => h.symm⟩
  · intro p q hp hq
    unfold Transaction.IsValidCheckpoint
    by_cases h : tx.B.Checkpoint = c
    · have hpq : p = q := by
        rw [h, hq] at hp
        exact (Except.ok.inj hp).symm
      simp [h, hpq]
    · simp only [h, if_false, hp, hq, beq_iff_eq]
      exact ⟨fun h => h.symm, fun h => h.symm⟩

/-- C6 (amended) at parseable checkpoints: `"h1-x"` against `"h1-y"`. -/
theorem IsValidCheckpoint_iff_witness :
    ((exampleTx "h" "A" "h1-x" 1 []).IsValidCheckpoint exampleEnv "h1-y" = true ↔
      ("h1", "x").1 = ("h1", "y").1) :=
  (IsValidCheckpoint_iff exampleEnv (exampleTx "h" "A" "h1-x" 1 []) "h1-y").2
    ("h1", "x") ("h1", "y") rfl rfl

/-! ### C7: total amount -/

/-- C7: when the sum of the operation amounts stays within the maximum
supply, `TotalAmount(false)` is that sum; when the sum plus
`Fee * len(Operations)` stays within it, `TotalAmount(true)` is the sum plus
`Fee * len(Operations)`, so the two totals differ by `Fee * len(Operations)`. -/
theorem TotalAmount_eq (env : Env) (tx : Transaction) :
    (sumAmounts tx.B.Operations ≤ env.MaximumBalance →
      tx.TotalAmount env false = some (sumAmounts tx.B.Operations)) ∧
    (sumAmounts tx.B.Operations + tx.B.Fee * tx.B.Operations.length ≤ env.MaximumBalance →
      tx.TotalAmount env true
        = some (sumAmounts tx.B.Operations + tx.B.Fee * tx.B.Operations.length) ∧
      ∃ withFee withoutFee : Nat,
        tx.TotalAmount env true = some withFee ∧
        tx.TotalAmount env false = some withoutFee ∧
        withFee - withoutFee = tx.B.Fee * tx.B.Operations.length) := by
  have hfalse : sumAmounts tx.B.Operations ≤ env.MaximumBalance →
      tx.TotalAmount env false = some (sumAmounts tx.B.Operations) := by
    intro h
    have hs := foldl_MustAdd env.MaximumBalance tx.B.Operations 0 (by omega)
    simp only [Nat.zero_add] at hs
    simp only [Transaction.TotalAmount, hs]
    simp
  have htrue : sumAmounts tx.B.Operations + tx.B.Fee * tx.B.Operations.length
        ≤ env.MaximumBalance →
      tx.TotalAmount env true
        = some (sumAmounts tx.B.Operations + tx.B.Fee * tx.B.Operations.length) := by
    intro h
    have hs := foldl_MustAdd env.MaximumBalance tx.B.Operations 0 (by omega)
    simp only [Nat.zero_add] at hs
    simp only [Transaction.TotalAmount, hs, if_true, Option.some_bind]
    rw [Amount.MustMult_of_le _ _ _ (by omega), Option.some_bind,
      Amount.MustAdd_of_le _ _ _ h]
  refine ⟨hfalse, fun h => ⟨htrue h, _, _, htrue h, hfalse (by omega), by omega⟩⟩

/-- C7 at a transaction with payments of 100 and 50 and fee 1: the totals
are 150 and 152. -/
theorem TotalAmount_eq_witness :
    (exampleTx "h" "A" "u-u" 1 [examplePayment "B" 100, examplePayment "C" 50]).TotalAmount
        exampleEnv false = some 150 ∧
    (exampleTx "h" "A" "u-u" 1 [examplePayment "B" 100, examplePayment "C" 50]).TotalAmount
        exampleEnv true = some 152 :=
  ⟨(TotalAmount_eq exampleEnv
      (exampleTx "h" "A" "u-u" 1 [examplePayment "B" 100, examplePayment "C" 50])).1
      (by decide),
   ((TotalAmount_eq exampleEnv
      (exampleTx "h" "A" "u-u" 1 [examplePayment "B" 100, examplePayment "C" 50])).2
      (by decide)).1⟩

/-! ### C8: `NewTransaction` -/

/-- C8: `NewTransaction` returns `ErrorTransactionEmptyOperations` iff the
operation list is empty; for a non-empty list it returns no error and a
transaction of type `"transaction"` whose body has the given source and
checkpoint, `Fee = BaseFee` and the given operations in order. -/
theorem NewTransaction_spec (env : Env) (now source checkpoint : String)
    (ops : List Operation) :
    ((NewTransaction env now source checkpoint ops).2 = some ErrorTransactionEmptyOperations
      ↔ ops = []) ∧
    (ops ≠ [] →
      (NewTransaction env now source checkpoint ops).2 = none ∧
      (NewTransaction env now source checkpoint ops).1.T = "transaction" ∧
      (NewTransaction env now source checkpoint ops).1.B =
        { Source := source, Fee := env.BaseFee, Checkpoint := checkpoint,
          Operations := ops }) := by
  cases ops with
  | nil => simp [NewTransaction]
  | cons op rest => simp [NewTransaction]

/-- C8 at a one-payment transaction. -/
theorem NewTransaction_spec_witness :
    (NewTransaction exampleEnv "t0" "A" "u-u" [examplePayment "B" 100]).2 = none ∧
    (NewTransaction exampleEnv "t0" "A" "u-u" [examplePayment "B" 100]).1.T = "transaction" ∧
    (NewTransaction exampleEnv "t0" "A" "u-u" [examplePayment "B" 100]).1.B =
      { Source := "A", Fee := exampleEnv.BaseFee, Checkpoint := "u-u",
        Operations := [examplePayment "B" 100] } :=
  (NewTransaction_spec exampleEnv "t0" "A" "u-u" [examplePayment "B" 100]).2 (by decide)

/-! ### C9: hash and signature -/

/-- C9: a transaction returned by `NewTransaction` without error, and any
transaction after `Sign`, has header hash `base58(object_hash(body))` of its
own body; `Sign` keeps the type, the body and the header fields `Version`
and `Created`, and sets `Signature` to base58 of the key pair's signature
over `networkID` followed by the bytes of the hash string. -/
theorem hash_and_signature (env : Env) :
    (∀ (now source checkpoint : String) (ops : List Operation),
      (NewTransaction env now source checkpoint ops).2 = none →
      (NewTransaction env now source checkpoint ops).1.H.Hash =
        env.base58Encode
          (env.MustMakeObjectHash (NewTransaction env now source checkpoint ops).1.B)) ∧
    (∀ (tx : Transaction) (kp : KP) (networkID : Bytes),
      (tx.Sign env kp networkID).H.Hash =
        env.base58Encode (env.MustMakeObjectHash (tx.Sign env kp networkID).B) ∧
      (tx.Sign env kp networkID).B = tx.B ∧
      (tx.Sign env kp networkID).T = tx.T ∧
      (tx.Sign env kp networkID).H.Version = tx.H.Version ∧
      (tx.Sign env kp networkID).H.Created = tx.H.Created ∧
      (tx.Sign env kp networkID).H.Signature =
        env.base58Encode
          (kp.Sign (networkID ++ stringBytes (tx.Sign env kp networkID).H.Hash)).1) := by
  constructor
  · intro now source checkpoint ops h
    cases ops with
    | nil => simp [NewTransaction] at h
    | cons op rest =>
      simp [NewTransaction, TransactionBody.MakeHashString, TransactionBody.MakeHash]
  · intro tx kp networkID
    simp [Transaction.Sign, TransactionBody.MakeHashString, TransactionBody.MakeHash]

/-- C9 at a concrete `NewTransaction` call. -/
theorem hash_and_signature_witness :
    (NewTransaction exampleEnv "t0" "A" "u-u" [examplePayment "B" 100]).1.H.Hash =
      exampleEnv.base58Encode
        (exampleEnv.MustMakeObjectHash
          (NewTransaction exampleEnv "t0" "A" "u-u" [examplePayment "B" 100]).1.B) :=
  (hash_and_signature exampleEnv).1 "t0" "A" "u-u" [examplePayment "B" 100] (by decide)

/-! ### C10 -/

/-- C10: `New` is create-only.  If `k` is already present, `New` returns an
error and the store is unchanged; if `k` is absent and the value encodes to
`enc`, `New` returns no error, afterwards `k` maps to `enc` and every other
key reads as before. -/
theorem New_create_only {β : Type} (st : LevelDBBackend β) (k : String) (v : Value β) :
    ((st.Has k).1 = true →
        (st.New k v).1 ≠ none ∧ (st.New k v).2 = st) ∧
    ((st.Has k).1 = false → ∀ enc : β, v.encoded = Except.ok enc →
        (st.New k v).1 = none ∧
        DB.Get (st.New k v).2.DB k = some enc ∧
        ∀ j : String, j ≠ k → DB.Get (st.New k v).2.DB j = DB.Get st.DB j) := by
  refine ⟨fun hp => ?_, fun ha enc henc => ?_⟩
  · unfold LevelDBBackend.New
    cases hv : v.encoded with
    | error e => simp
    | ok encoded =>
      simp only [LevelDBBackend.Has, DB.Has] at hp ⊢
      simp [hp]
  · unfold LevelDBBackend.New
    simp only [LevelDBBackend.Has, DB.Has] at ha
    simp only [henc, LevelDBBackend.Has, DB.Has, ha]
    refine ⟨by simp, ?_, ?_⟩
    · simpa using DB.Get_Put_self st.DB k enc
    · intro j hj
      simpa using DB.Get_Put_other st.DB k j enc hj

/-- C10 at a concrete store: creating an existing key fails and changes
nothing, creating a fresh key stores the encoding. -/
theorem New_create_only_witness :
    ((LevelDBBackend.New ⟨[("a", "1")]⟩ "a" (serializableValue "2")).1 ≠ none ∧
      (LevelDBBackend.New ⟨[("a", "1")]⟩ "a" (serializableValue "2")).2 = ⟨[("a", "1")]⟩) ∧
    ((LevelDBBackend.New ⟨[("a", "1")]⟩ "b" (serializableValue "2")).1 = none ∧
      DB.Get (LevelDBBackend.New ⟨[("a", "1")]⟩ "b" (serializableValue "2")).2.DB "b"
        = some "2" ∧
      ∀ j : String, j ≠ "b" →
        DB.Get (LevelDBBackend.New ⟨[("a", "1")]⟩ "b" (serializableValue "2")).2.DB j
          = DB.Get [("a", "1")] j) :=
  ⟨(New_create_only ⟨[("a", "1")]⟩ "a" (serializableValue "2")).1 (by decide),
   (New_create_only ⟨[("a", "1")]⟩ "b" (serializableValue "2")).2 (by decide) "2" rfl⟩

/-! ### C11: `Set` is update-only -/

/-- C11: `Set` is update-only.  If `k` is absent, `Set` returns an error and
the store is unchanged; if `k` is present and the value encodes (with
`EncodeJSONValue`) to `enc`, `Set` returns no error, afterwards `k` maps to
`enc` and every other key reads as before. -/
theorem Set_update_only {β : Type} (st : LevelDBBackend β) (k : String) (v : Value β) :
    ((st.Has k).1 = false →
        (st.Set k v).1 ≠ none ∧ (st.Set k v).2 = st) ∧
    ((st.Has k).1 = true → ∀ enc : β, v.EncodeJSONValue = Except.ok enc →
        (st.Set k v).1 = none ∧
        DB.Get (st.Set k v).2.DB k = some enc ∧
        ∀ j : String, j ≠ k → DB.Get (st.Set k v).2.DB j = DB.Get st.DB j) := by
  refine ⟨fun ha => ?_, fun hp enc henc => ?_⟩
  · unfold LevelDBBackend.Set
    cases hv : v.EncodeJSONValue with
    | error e => simp
    | ok encoded =>
      simp only [LevelDBBackend.Has, DB.Has] at ha ⊢
      simp [ha]
  · unfold LevelDBBackend.Set
    simp only [LevelDBBackend.Has, DB.Has] at hp
    simp only [henc, LevelDBBackend.Has, DB.Has, hp]
    refine ⟨by simp, ?_, ?_⟩
    · simpa using DB.Get_Put_self st.DB k enc
    · intro j hj
      simpa using DB.Get_Put_other st.DB k j enc hj

/-- C11 at a concrete store: updating a missing key fails and creates
nothing, updating an existing key stores the encoding. -/
theorem Set_update_only_witness :
    ((LevelDBBackend.Set ⟨[("a", "1")]⟩ "b" (serializableValue "2")).1 ≠ none ∧
      (LevelDBBackend.Set ⟨[("a", "1")]⟩ "b" (serializableValue "2")).2 = ⟨[("a", "1")]⟩) ∧
    ((LevelDBBackend.Set ⟨[("a", "1")]⟩ "a" (serializableValue "2")).1 = none ∧
      DB.Get (LevelDBBackend.Set ⟨[("a", "1")]⟩ "a" (serializableValue "2")).2.DB "a"
        = some "2" ∧
      ∀ j : String, j ≠ "a" →
        DB.Get (LevelDBBackend.Set ⟨[("a", "1")]⟩ "a" (serializableValue "2")).2.DB j
          = DB.Get [("a", "1")] j) :=
  ⟨(Set_update_only ⟨[("a", "1")]⟩ "b" (serializableValue "2")).1 (by decide),
   (Set_update_only ⟨[("a", "1")]⟩ "a" (serializableValue "2")).2 (by decide) "2" rfl⟩

/-! ### C16: a checkpoint against itself, and against an unparseable one -/

/-- C16: a transaction is valid against its own checkpoint string, whether
or not that string parses; and against a different string it is invalid as
soon as one of the two strings fails to parse. -/
theorem IsValidCheckpoint_self_and_unparsed (env : Env) (tx : Transaction) :
    tx.IsValidCheckpoint env tx.B.Checkpoint = true ∧
    (∀ c : String, tx.B.Checkpoint ≠ c →
      ((∃ e, env.ParseCheckpoint tx.B.Checkpoint = Except.error e) ∨
        (∃ e, env.ParseCheckpoint c = Except.error e)) →
      tx.IsValidCheckpoint env c = false) := by
  constructor
  · simp [Transaction.IsValidCheckpoint]
  · intro c hne hfail
    unfold Transaction.IsValidCheckpoint
    simp only [hne, if_false]
    rcases hfail with ⟨e, he⟩ | ⟨e, he⟩
    · cases hc : env.ParseCheckpoint c with
      | error e1 => rfl
      | ok q => simp [he]
    · simp [he]

/-- C16 at the dash-free checkpoint `"genesis"`: valid against itself,
invalid against `"h1-x"`. -/
theorem IsValidCheckpoint_self_and_unparsed_witness :
    (exampleTx "h" "A" "genesis" 1 []).IsValidCheckpoint exampleEnv "genesis" = true ∧
    (exampleTx "h" "A" "genesis" 1 []).IsValidCheckpoint exampleEnv "h1-x" = false :=
  ⟨(IsValidCheckpoint_self_and_unparsed exampleEnv (exampleTx "h" "A" "genesis" 1 [])).1,
   (IsValidCheckpoint_self_and_unparsed exampleEnv (exampleTx "h" "A" "genesis" 1 [])).2
     "h1-x" (by decide) (Or.inl ⟨_, rfl⟩)⟩

/-! ### Batches -/

theorem DB.Get_Write_other {β : Type} (batch : Batch β) (db : DB β) (j : String)
    (h : ∀ kv ∈ batch, kv.1 ≠ j) : DB.Get (DB.Write db batch) j = DB.Get db j := by
  induction batch generalizing db with
  | nil => rfl
  | cons kv rest ih =>
    simp only [DB.Write, List.foldl_cons]
    have h1 := ih (DB.Put db kv.1 kv.2) (fun x hx => h x (List.mem_cons_of_mem _ hx))
    simp only [DB.Write] at h1
    rw [h1, DB.Get_Put_other db kv.1 j kv.2 (fun he => h kv (List.mem_cons_self _ _) he.symm)]

theorem DB.Get_Write_isSome {β : Type} (batch : Batch β) (db : DB β) (j : String)
    (h : (DB.Get db j).isSome = true ∨ ∃ kv ∈ batch, kv.1 = j) :
    (DB.Get (DB.Write db batch) j).isSome = true := by
  induction batch generalizing db with
  | nil =>
    rcases h with h | ⟨kv, hkv, _⟩
    · exact h
    · cases hkv
  | cons kv rest ih =>
    simp only [DB.Write, List.foldl_cons]
    have h1 := ih (DB.Put db kv.1 kv.2)
    simp only [DB.Write] at h1
    apply h1
    by_cases hk : kv.1 = j
    · left
      rw [← hk, DB.Get_Put_self]
      rfl
    · rcases h with h | ⟨x, hx, hxj⟩
      · left
        rw [DB.Get_Put_other db kv.1 j kv.2 (fun he => hk he.symm)]
        exact h
      · rcases List.mem_cons.mp hx with hx1 | hx1
        · exact absurd (hx1 ▸ hxj) hk
        · right
          exact ⟨x, hx1, hxj⟩

theorem newsExisting_eq_none {β : Type} (st : LevelDBBackend β) (vs : List (Item β)) :
    st.newsExisting vs = none ↔ ∀ v ∈ vs, (st.Has v.Key).1 = false := by
  induction vs with
  | nil => simp [LevelDBBackend.newsExisting]
  | cons v rest ih =>
    unfold LevelDBBackend.newsExisting
    simp only [LevelDBBackend.Has, DB.Has] at ih ⊢
    cases hg : DB.Get st.DB v.Key with
    | some b => simp [hg]
    | none => simp [hg, ih]

theorem newsBatch_error {β : Type} (vs : List (Item β)) (batch : Batch β)
    (h : ∃ v ∈ vs, ∃ e, v.EncodeJSONValue = Except.error e) :
    ∃ e, newsBatch batch vs = Except.error e := by
  induction vs generalizing batch with
  | nil =>
    obtain ⟨v, hv, _⟩ := h
    cases hv
  | cons v rest ih =>
    unfold newsBatch
    cases hv : v.EncodeJSONValue with
    | error e => exact ⟨e, rfl⟩
    | ok encoded =>
      obtain ⟨w, hw, e, he⟩ := h
      rcases List.mem_cons.mp hw with hw1 | hw1
      · rw [hw1, hv] at he
        cases he
      · exact ih _ ⟨w, hw1, e, he⟩

theorem newsBatch_ok {β : Type} (vs : List (Item β)) (batch : Batch β)
    (h : ∀ v ∈ vs, ∃ enc, v.EncodeJSONValue = Except.ok enc) :
    ∃ out, newsBatch batch vs = Except.ok out ∧
      out.map Prod.fst = batch.map Prod.fst ++ vs.map (fun v => v.Key) := by
  induction vs generalizing batch with
  | nil => exact ⟨batch, rfl, by simp⟩
  | cons v rest ih =>
    unfold newsBatch
    obtain ⟨enc, henc⟩ := h v (List.mem_cons_self _ _)
    obtain ⟨out, hout, hkeys⟩ := ih (batch ++ [(v.Key, enc)])
      (fun w hw => h w (List.mem_cons_of_mem _ hw))
    refine ⟨out, by simp only [henc, hout], ?_⟩
    rw [hkeys]
    simp

/-! ### C18: `News` is all-or-nothing -/

/-- C18: `News` returns an error and leaves the store unchanged when the
list is empty, when some item's key is already present, or when some item
fails to encode; otherwise it returns no error, every item's key is present
afterwards and every key not in the list reads as before. -/
theorem News_all_or_nothing {β : Type} (st : LevelDBBackend β) (vs : List (Item β)) :
    ((vs = [] ∨ (∃ v ∈ vs, (st.Has v.Key).1 = true) ∨
        (∃ v ∈ vs, ∃ e, v.EncodeJSONValue = Except.error e)) →
      (st.News vs).1 ≠ none ∧ (st.News vs).2 = st) ∧
    (vs ≠ [] → (∀ v ∈ vs, (st.Has v.Key).1 = false) →
      (∀ v ∈ vs, ∃ enc, v.EncodeJSONValue = Except.ok enc) →
      (st.News vs).1 = none ∧
      (∀ v ∈ vs, ((st.News vs).2.Has v.Key).1 = true) ∧
      ∀ j : String, (∀ v ∈ vs, v.Key ≠ j) →
        DB.Get (st.News vs).2.DB j = DB.Get st.DB j) := by
  constructor
  · intro h
    unfold LevelDBBackend.News
    by_cases hlen : vs.length < 1
    · simp [hlen]
    · have hne : vs ≠ [] := by
        intro he
        simp [he] at hlen
      simp only [hlen, if_false]
      cases hex : st.newsExisting vs with
      | some e => simp
      | none =>
        rcases h with h | h | h
        · exact absurd h hne
        · obtain ⟨v, hv, hp⟩ := h
          have := (newsExisting_eq_none st vs).mp hex v hv
          rw [hp] at this
          cases this
        · obtain ⟨e, he⟩ := newsBatch_error vs [] h
          simp [he]
  · intro hne habsent henc
    unfold LevelDBBackend.News
    have hlen : ¬ vs.length < 1 := by
      cases vs with
      | nil => exact absurd rfl hne
      | cons v rest => simp
    obtain ⟨out, hout, hkeys⟩ := newsBatch_ok vs [] henc
    simp only [List.map_nil, List.nil_append] at hkeys
    simp only [hlen, if_false, (newsExisting_eq_none st vs).mpr habsent, hout]
    refine ⟨trivial, ?_, ?_⟩
    · intro v hv
      simp only [LevelDBBackend.Has, DB.Has]
      apply DB.Get_Write_isSome
      right
      have hmem : v.Key ∈ out.map Prod.fst := by
        rw [hkeys]
        exact List.mem_map.mpr ⟨v, hv, rfl⟩
      obtain ⟨kv, hkv, hk⟩ := List.mem_map.mp hmem
      exact ⟨kv, hkv, hk⟩
    · intro j hj
      apply DB.Get_Write_other
      intro kv hkv
      have hmem : kv.1 ∈ out.map Prod.fst := List.mem_map.mpr ⟨kv, hkv, rfl⟩
      rw [hkeys] at hmem
      obtain ⟨v, hv, hk⟩ := List.mem_map.mp hmem
      rw [← hk]
      exact hj v hv

/-- C18 at a concrete store: creating `a` (present) and `b` fails and
changes nothing; creating `b` and `c` stores both and keeps `a`. -/
theorem News_all_or_nothing_witness :
    ((LevelDBBackend.News ⟨[("a", "1")]⟩ [exampleItem "b" "2", exampleItem "a" "3"]).1 ≠ none ∧
      (LevelDBBackend.News ⟨[("a", "1")]⟩ [exampleItem "b" "2", exampleItem "a" "3"]).2
        = ⟨[("a", "1")]⟩) ∧
    ((LevelDBBackend.News ⟨[("a", "1")]⟩ [exampleItem "c" "3", exampleItem "b" "2"]).1 = none ∧
      (∀ v ∈ [exampleItem "c" "3", exampleItem "b" "2"],
        ((LevelDBBackend.News ⟨[("a", "1")]⟩
          [exampleItem "c" "3", exampleItem "b" "2"]).2.Has v.Key).1 = true) ∧
      ∀ j : String, (∀ v ∈ [exampleItem "c" "3", exampleItem "b" "2"], v.Key ≠ j) →
        DB.Get (LevelDBBackend.News ⟨[("a", "1")]⟩
          [exampleItem "c" "3", exampleItem "b" "2"]).2.DB j = DB.Get [("a", "1")] j) :=
  ⟨(News_all_or_nothing ⟨[("a", "1")]⟩ [exampleItem "b" "2", exampleItem "a" "3"]).1
      (Or.inr (Or.inl ⟨exampleItem "a" "3", by simp, by decide⟩)),
   (News_all_or_nothing ⟨[("a", "1")]⟩ [exampleItem "c" "3", exampleItem "b" "2"]).2
      (by simp) (by intro v hv; simp at hv; rcases hv with rfl | rfl <;> decide)
      (by intro v hv; simp at hv; rcases hv with rfl | rfl <;> exact ⟨_, rfl⟩)⟩

/-! ### The order of keys -/

theorem bytesLt_trans (a b c : List Nat) (hab : bytesLt a b = true) (hbc : bytesLt b c = true) :
    bytesLt a c = true := by
  induction a generalizing b c with
  | nil =>
    cases b with
    | nil => simp [bytesLt] at hab
    | cons y ys =>
      cases c with
      | nil => simp [bytesLt] at hbc
      | cons z zs => simp [bytesLt]
  | cons x xs ih =>
    cases b with
    | nil => simp [bytesLt] at hab
    | cons y ys =>
      cases c with
      | nil => simp [bytesLt] at hbc
      | cons z zs =>
        simp only [bytesLt, Bool.or_eq_true, Bool.and_eq_true, decide_eq_true_eq,
          beq_iff_eq] at hab hbc ⊢
        rcases hab with h1 | ⟨h1, h2⟩
        · rcases hbc with h3 | ⟨h3, _⟩
          · left; omega
          · left; omega
        · rcases hbc with h3 | ⟨h3, h4⟩
          · left; omega
          · right
            exact ⟨by omega, ih ys zs h2 h4⟩

theorem bytesLt_total (a b : List Nat) (hab : bytesLt a b = false) (hne : a ≠ b) :
    bytesLt b a = true := by
  induction a generalizing b with
  | nil =>
    cases b with
    | nil => exact absurd rfl hne
    | cons y ys => simp [bytesLt] at hab
  | cons x xs ih =>
    cases b with
    | nil => simp [bytesLt]
    | cons y ys =>
      simp only [bytesLt, Bool.or_eq_false_iff, Bool.and_eq_false_imp, decide_eq_false_iff_not,
        beq_iff_eq] at hab
      simp only [bytesLt, Bool.or_eq_true, Bool.and_eq_true, decide_eq_true_eq, beq_iff_eq]
      by_cases hxy : x = y
      · right
        refine ⟨hxy.symm, ih ys (hab.2 hxy) ?_⟩
        intro he
        exact hne (by rw [hxy, he])
      · left
        have := hab.1
        omega

theorem keyLt_trans (a b c : String) (hab : keyLt a b = true) (hbc : keyLt b c = true) :
    keyLt a c = true :=
  bytesLt_trans _ _ _ hab hbc

theorem keyLt_total (a b : String) (hab : keyLt a b = false) (hne : a ≠ b) :
    keyLt b a = true := by
  apply bytesLt_total _ _ hab
  intro he
  apply hne
  have hinj : Function.Injective Char.toNat := by
    intro c d hcd
    apply Char.ext
    apply UInt32.ext
    exact hcd
  exact String.ext (List.map_injective_iff.mpr hinj he)

theorem DB.ascending_iff {β : Type} (l : DB β) :
    DB.ascending l = true ↔
      List.Chain' (fun a b : String × β => keyLt a.1 b.1 = true) l := by
  induction l with
  | nil => simp [DB.ascending]
  | cons a rest ih =>
    cases rest with
    | nil => simp [DB.ascending]
    | cons b r => simp [DB.ascending, List.chain'_cons, ih]

/-- A selection of the entries of an ascending list is ascending. -/
theorem DB.ascending_filter {β : Type} (p : String × β → Bool) (l : DB β)
    (h : DB.ascending l = true) : DB.ascending (l.filter p) = true := by
  rw [DB.ascending_iff] at h ⊢
  haveI : IsTrans (String × β) (fun a b => keyLt a.1 b.1 = true) :=
    ⟨fun a b c hab hbc => keyLt_trans a.1 b.1 c.1 hab hbc⟩
  exact ((List.chain'_iff_pairwise.mp h).filter p).chain'

theorem DB.Put_head {β : Type} (db : DB β) (k : String) (v : β) :
    ∀ y ∈ (DB.Put db k v).head?, y.1 = k ∨ y ∈ db.head? := by
  intro y hy
  cases db with
  | nil =>
    simp only [DB.Put, List.head?_cons, Option.mem_def, Option.some.injEq] at hy
    left
    rw [← hy]
  | cons hd tl =>
    obtain ⟨k', v'⟩ := hd
    unfold DB.Put at hy
    by_cases h1 : keyLt k k' = true
    · rw [if_pos h1] at hy
      simp only [List.head?_cons, Option.mem_def, Option.some.injEq] at hy
      left
      rw [← hy]
    · rw [if_neg h1] at hy
      by_cases h2 : k = k'
      · rw [if_pos h2] at hy
        simp only [List.head?_cons, Option.mem_def, Option.some.injEq] at hy
        left
        rw [← hy]
      · rw [if_neg h2] at hy
        right
        simpa using hy

/-- The engine keeps its entries ascending: `Put` preserves the order. -/
theorem DB.ascending_Put {β : Type} (db : DB β) (k : String) (v : β)
    (h : DB.ascending db = true) : DB.ascending (DB.Put db k v) = true := by
  rw [DB.ascending_iff] at h ⊢
  induction db with
  | nil => simp [DB.Put]
  | cons hd tl ih =>
    obtain ⟨k', v'⟩ := hd
    rw [List.chain'_cons'] at h
    unfold DB.Put
    by_cases h1 : keyLt k k' = true
    · rw [if_pos h1, List.chain'_cons']
      refine ⟨?_, List.chain'_cons'.mpr h⟩
      intro y hy
      simp only [List.head?_cons, Option.mem_def, Option.some.injEq] at hy
      rw [← hy]
      exact h1
    · rw [if_neg h1]
      by_cases h2 : k = k'
      · rw [if_pos h2, List.chain'_cons']
        subst h2
        exact h
      · rw [if_neg h2, List.chain'_cons']
        refine ⟨?_, ih h.2⟩
        intro y hy
        rcases DB.Put_head tl k v y hy with hk | hm
        · rw [hk]
          exact keyLt_total k k' (by simpa using h1) h2
        · exact h.1 y hm

/-! ### Runs of the iterator closures -/

theorem IterFuncs.nextN_released {β : Type} (m : Nat) (it : Iterator β) (reverse : Bool)
    (n : Nat) (hrel : it.released = true) :
    (IterFuncs.live it reverse false n).nextN m = List.replicate m (IterItem.zero, false) := by
  induction m generalizing it with
  | zero => rfl
  | succ m ih =>
    have hstep : (IterFuncs.live it reverse false n).next
        = ((IterItem.zero, false), IterFuncs.live it.Release reverse false n) := by
      cases reverse <;> simp [IterFuncs.next, Iterator.Next, Iterator.Prev, hrel]
    simp only [IterFuncs.nextN, hstep, List.replicate_succ]
    rw [ih it.Release (by simp [Iterator.Release])]

theorem IterFuncs.nextN_exhausted {β : Type} (m : Nat) :
    (IterFuncs.exhausted : IterFuncs β).nextN m = List.replicate m (IterItem.zero, false) := by
  induction m with
  | zero => rfl
  | succ m ih => simp only [IterFuncs.nextN, IterFuncs.next, ih, List.replicate_succ]

/-- Forward: the calls yield the entries after the cursor, numbered from
`n + 1`, and then no more. -/
theorem IterFuncs.nextN_forward {β : Type} (after before : List (String × β))
    (current : Option (String × β)) (n m : Nat) :
    (IterFuncs.live { before := before, current := current, after := after, released := false }
        false false n).nextN (after.length + m)
      = numbered (n + 1) after ++ List.replicate m (IterItem.zero, false) := by
  induction after generalizing before current n with
  | nil =>
    cases m with
    | zero => rfl
    | succ m =>
      have h0 : ([] : List (String × β)).length + (m + 1) = m + 1 := by simp
      rw [h0]
      simp only [IterFuncs.nextN, IterFuncs.next, Iterator.Next, numbered, List.nil_append,
        List.replicate_succ, Bool.false_eq_true, if_false]
      rw [IterFuncs.nextN_released m _ false n rfl]
  | cons x xs ih =>
    have hlen : (x :: xs).length + m = (xs.length + m) + 1 := by
      simp only [List.length_cons]
      omega
    rw [hlen]
    simp only [IterFuncs.nextN, IterFuncs.next, Iterator.Next, numbered, List.cons_append]
    simp only [Bool.false_eq_true, if_false, Iterator.Key, Iterator.Value, Option.map_some']
    rw [ih]

/-- Reverse: the calls yield the entries before the cursor, nearest first,
numbered from `n + 1`, and then no more. -/
theorem IterFuncs.nextN_reverse {β : Type} (before after : List (String × β))
    (current : Option (String × β)) (n m : Nat) :
    (IterFuncs.live { before := before, current := current, after := after, released := false }
        true false n).nextN (before.length + m)
      = numbered (n + 1) before ++ List.replicate m (IterItem.zero, false) := by
  induction before generalizing after current n with
  | nil =>
    cases m with
    | zero => rfl
    | succ m =>
      have h0 : ([] : List (String × β)).length + (m + 1) = m + 1 := by simp
      rw [h0]
      simp only [IterFuncs.nextN, IterFuncs.next, Iterator.Prev, numbered, List.nil_append,
        List.replicate_succ, Bool.false_eq_true, if_false, if_true]
      rw [IterFuncs.nextN_released m _ true n rfl]
  | cons x xs ih =>
    have hlen : (x :: xs).length + m = (xs.length + m) + 1 := by
      simp only [List.length_cons]
      omega
    rw [hlen]
    simp only [IterFuncs.nextN, IterFuncs.next, Iterator.Prev, numbered, List.cons_append]
    simp only [Bool.false_eq_true, if_false, if_true, Iterator.Key, Iterator.Value,
      Option.map_some']
    rw [ih]

theorem NewIterator_after {β : Type} (st : LevelDBBackend β) (pfx : String) :
    DB.NewIterator st.DB (if pfx.length > 0 then some (BytesPrefix pfx) else none)
      = { before := [], current := none, after := st.matching pfx, released := false } := by
  unfold DB.NewIterator LevelDBBackend.matching
  by_cases h : pfx.length > 0
  · simp [h, BytesPrefix, Range.contains]
  · have hp : pfx.data = [] := by
      obtain ⟨d⟩ := pfx
      have h2 : (String.mk d).length = 0 := by omega
      exact List.length_eq_zero.mp h2
    have hall : (fun kv : String × β => pfx.data.isPrefixOf kv.1.data) = fun _ => true := by
      funext kv
      rw [hp]
      cases kv.1.data <;> rfl
    rw [if_neg h, hall, List.filter_true]

/-- All calls of a forward iteration. -/
theorem GetIterator_forward {β : Type} (st : LevelDBBackend β) (pfx : String) (m : Nat) :
    (st.GetIterator pfx false).nextN ((st.matching pfx).length + m)
      = numbered 1 (st.matching pfx) ++ List.replicate m (IterItem.zero, false) := by
  unfold LevelDBBackend.GetIterator
  simp only [NewIterator_after, Bool.false_eq_true, if_false]
  exact IterFuncs.nextN_forward (st.matching pfx) [] none 0 m

/-- All calls of a reverse iteration. -/
theorem GetIterator_reverse {β : Type} (st : LevelDBBackend β) (pfx : String) (m : Nat) :
    (st.GetIterator pfx true).nextN ((st.matching pfx).length + m)
      = numbered 0 (st.matching pfx).reverse ++ List.replicate m (IterItem.zero, false) := by
  unfold LevelDBBackend.GetIterator
  simp only [NewIterator_after, if_true, Iterator.Last, Bool.false_eq_true, if_false,
    List.reverse_nil, List.nil_append, Option.toList_none]
  cases hrev : (st.matching pfx).reverse with
  | nil =>
    have hnil : st.matching pfx = [] := List.reverse_eq_nil_iff.mp hrev
    simp only [hnil, List.length_nil, Nat.zero_add, numbered, List.nil_append]
    exact IterFuncs.nextN_exhausted m
  | cons x xs =>
    have hlen : (st.matching pfx).length = xs.length + 1 := by
      rw [← List.length_reverse, hrev, List.length_cons]
    have hlen2 : (st.matching pfx).length + m = (xs.length + m) + 1 := by omega
    rw [hlen2]
    simp only [IterFuncs.nextN, IterFuncs.next, if_true, numbered, List.cons_append,
      Iterator.Key, Iterator.Value, Bool.false_eq_true, if_false, Option.map_some']
    rw [IterFuncs.nextN_reverse xs [] (some x) 0 m]

theorem numbered_view {β : Type} (start : Nat) (l : List (String × β)) :
    (numbered start l).map (fun r => (r.1.Key, r.1.Value, r.2))
      = l.map (fun kv => (some kv.1, some kv.2, true)) := by
  induction l generalizing start with
  | nil => rfl
  | cons kv rest ih => simp [numbered, ih]

theorem numbered_N {β : Type} (start : Nat) (l : List (String × β)) :
    (numbered start l).map (fun r => r.1.N) = List.range' start l.length := by
  induction l generalizing start with
  | nil => rfl
  | cons kv rest ih => simp [numbered, ih, List.range'_succ]

theorem numbered_length {β : Type} (start : Nat) (l : List (String × β)) :
    (numbered start l).length = l.length := by
  induction l generalizing start with
  | nil => rfl
  | cons kv rest ih => simp [numbered, ih]

theorem numbered_ok {β : Type} (start : Nat) (l : List (String × β)) :
    ∀ r ∈ numbered start l, r.2 = true := by
  induction l generalizing start with
  | nil => intro r hr; cases hr
  | cons kv rest ih =>
    intro r hr
    simp only [numbered, List.mem_cons] at hr
    rcases hr with hr | hr
    · rw [hr]
    · exact ih _ r hr

/-! ### C12: what an iteration yields -/

/-- C12: with `k` the number of entries whose key starts with `pfx`, the
first `k` calls of the next function of `GetIterator(pfx, false)` yield
exactly those entries in store order, and every later call reports no item;
with `reverse = true` the calls yield the same entries in the reversed
order.  For the empty prefix these are all entries; and the store order is
the ascending byte order of the keys, which the engine maintains. -/
theorem GetIterator_yields {β : Type} (st : LevelDBBackend β) (pfx : String) :
    (∀ m : Nat,
      ((st.GetIterator pfx false).nextN ((st.matching pfx).length + m)).map
          (fun r => (r.1.Key, r.1.Value, r.2))
        = (st.matching pfx).map (fun kv => (some kv.1, some kv.2, true))
            ++ List.replicate m (none, none, false)) ∧
    (∀ m : Nat,
      ((st.GetIterator pfx true).nextN ((st.matching pfx).length + m)).map
          (fun r => (r.1.Key, r.1.Value, r.2))
        = (st.matching pfx).reverse.map (fun kv => (some kv.1, some kv.2, true))
            ++ List.replicate m (none, none, false)) ∧
    (pfx = "" → st.matching pfx = st.DB) ∧
    (DB.ascending st.DB = true → DB.ascending (st.matching pfx) = true) := by
  refine ⟨fun m => ?_, fun m => ?_, fun hp => ?_, fun h => ?_⟩
  · rw [GetIterator_forward, List.map_append, numbered_view]
    simp [IterItem.zero]
  · rw [GetIterator_reverse, List.map_append, numbered_view]
    simp [IterItem.zero]
  · subst hp
    unfold LevelDBBackend.matching
    have hall : (fun kv : String × β => "".data.isPrefixOf kv.1.data) = fun _ => true := by
      funext kv
      cases kv.1.data <;> rfl
    rw [hall, List.filter_true]
  · exact DB.ascending_filter _ st.DB h

/-- C12 at a store with one `bo:` key and two `bt:` keys: the `bt:` entries
are in ascending key order, and the empty prefix selects every entry. -/
theorem GetIterator_yields_witness :
    exampleKeys.matching "" = exampleKeys.DB ∧
    DB.ascending (exampleKeys.matching "bt:") = true :=
  ⟨(GetIterator_yields exampleKeys "").2.2.1 rfl,
   (GetIterator_yields exampleKeys "bt:").2.2.2 (by decide)⟩

/-! ### C17: the numbering of the items -/

/-- C17: with `k` the number of matching entries, the `k` items of a forward
iteration carry `N = 1, 2, …, k` and the `k` items of a reverse iteration
carry `N = 0, 1, …, k - 1`; each of these calls does yield an item. -/
theorem GetIterator_numbering {β : Type} (st : LevelDBBackend β) (pfx : String) :
    ((st.GetIterator pfx false).nextN (st.matching pfx).length).map (fun r => r.1.N)
      = List.range' 1 (st.matching pfx).length ∧
    ((st.GetIterator pfx true).nextN (st.matching pfx).length).map (fun r => r.1.N)
      = List.range' 0 (st.matching pfx).length ∧
    (∀ r ∈ (st.GetIterator pfx false).nextN (st.matching pfx).length, r.2 = true) ∧
    (∀ r ∈ (st.GetIterator pfx true).nextN (st.matching pfx).length, r.2 = true) := by
  have hf := GetIterator_forward st pfx 0
  have hr := GetIterator_reverse st pfx 0
  simp only [Nat.add_zero, List.replicate_zero, List.append_nil] at hf hr
  rw [hf, hr]
  refine ⟨numbered_N 1 _, ?_, numbered_ok 1 _, numbered_ok 0 _⟩
  rw [numbered_N, List.length_reverse]

/-! ### C13: closing the consensus after a failed pipeline -/

/-- C13 as stated fails: a validator's `ALLCONFIRM` ballot is received, the
receive stage leaves a closed staging on the checker and the store stage
fails with an error that is not a stop.  `handleMessage` logs the failure and
then closes the consensus all the same: the voting result `h1` is gone. -/
theorem handleMessage_closes_after_error_counterexample :
    (NodeRunner.ballotPipeline exampleAbsent (exampleRunner ["h1"])
        (NewMessage BallotMessage [3])).err
      = some (CheckerError.other ErrorBlockAccountDoesNotExists) ∧
    (NodeRunner.handleMessage exampleAbsent (exampleRunner ["h1"])
        [NewMessage BallotMessage [3]]).consensus = [] ∧
    (NodeRunner.handleMessage exampleAbsent (exampleRunner ["h1"])
        [NewMessage BallotMessage [3]]).log
      = [LogRecord.debug "got ballot", LogRecord.error "failed to handle ballot",
         LogRecord.debug "consensus closed"] := by
  decide

/-- C13 (amended): when the ballot pipeline returns an error that is not a
stop, the runner logs it and goes on to `closeConsensus`.  If the staging
left on the checker is empty or not closed, `Consensus.CloseConsensus` is
not called: the runner is the one the pipeline left, plus the log record.
If the staging is non-empty and closed, `Consensus.CloseConsensus` is
called with the ballot of the checker and the consensus is what it leaves. -/
theorem handleBallotMessage_after_error {κ ς : Type} (x : Absent κ ς) (nr : NodeRunner κ)
    (message : Message) (e : Err) (hmsg : message.IsEmpty = false)
    (herr : (NodeRunner.ballotPipeline x nr message).err = some (CheckerError.other e)) :
    ((x.IsEmpty (NodeRunner.ballotPipeline x nr message).checker.VotingStateStaging = true ∨
        x.IsClosed (NodeRunner.ballotPipeline x nr message).checker.VotingStateStaging = false) →
      NodeRunner.handleBallotMessage x nr message
        = (NodeRunner.ballotPipeline x nr message).checker.NodeRunner.logError
            "failed to handle ballot") ∧
    (x.IsEmpty (NodeRunner.ballotPipeline x nr message).checker.VotingStateStaging = false →
      x.IsClosed (NodeRunner.ballotPipeline x nr message).checker.VotingStateStaging = true →
      (NodeRunner.handleBallotMessage x nr message).consensus
        = (x.CloseConsensus (NodeRunner.ballotPipeline x nr message).checker.NodeRunner.consensus
            (NodeRunner.ballotPipeline x nr message).checker.Ballot).2) := by
  constructor
  · intro h
    unfold NodeRunner.handleBallotMessage
    simp only [hmsg, herr, CheckerError.isStop, NodeRunner.closeConsensus]
    rcases h with h | h
    · simp [h]
    · by_cases h1 : x.IsEmpty
          (NodeRunner.ballotPipeline x nr message).checker.VotingStateStaging = true
      · simp [h1]
      · simp [h1, h]
  · intro h1 h2
    unfold NodeRunner.handleBallotMessage
    simp only [hmsg, herr, CheckerError.isStop, NodeRunner.closeConsensus]
    simp only [h1, h2, Bool.false_eq_true, if_false, Bool.not_true, Bool.not_false, if_true]
    rcases hc : x.CloseConsensus (NodeRunner.ballotPipeline x nr message).checker.NodeRunner.consensus
        (NodeRunner.ballotPipeline x nr message).checker.Ballot with ⟨_ | err, k⟩ <;>
      simp [NodeRunner.logError, NodeRunner.logDebug, hc]

/-- C13 (amended) at a malformed ballot (no staging: the consensus keeps
`h1`) and at an `ALLCONFIRM` ballot whose store stage fails (closed staging:
`h1` is closed). -/
theorem handleBallotMessage_after_error_witness :
    (NodeRunner.handleBallotMessage exampleAbsent (exampleRunner ["h1"])
        (NewMessage BallotMessage [2])).consensus = ["h1"] ∧
    (NodeRunner.handleBallotMessage exampleAbsent (exampleRunner ["h1"])
        (NewMessage BallotMessage [3])).consensus = [] :=
  ⟨congrArg NodeRunner.consensus
      ((handleBallotMessage_after_error exampleAbsent (exampleRunner ["h1"])
        (NewMessage BallotMessage [2]) ErrorBallotHasMessage (by decide) (by decide)).1
        (Or.inl (by decide))),
   (handleBallotMessage_after_error exampleAbsent (exampleRunner ["h1"])
      (NewMessage BallotMessage [3]) ErrorBlockAccountDoesNotExists (by decide) (by decide)).2
      (by decide) (by decide)⟩

/-! ### C14: a ballot of an unknown validator -/

/-- C14 as stated fails when the ballot is also malformed: the `SIGN` ballot
of the unknown node `N9` that still carries its message ends the default
pipeline at the well-formedness stage, one stage before the known-validator
stage, with an error that is not a stop. -/
theorem unknown_validator_malformed_counterexample :
    exampleParse (NewMessage BallotMessage [2]).Data
      = Except.ok { message := some (exampleTx "h1" "A" "u-u" 1 [examplePayment "B" 100]),
                    node_key := "N9", voting_hole := VotingHole.YES,
                    state := BallotState.SIGN, hash := "h1", signature := "" } ∧
    "N9" ∉ (exampleRunner []).validators ∧
    (NodeRunner.ballotPipeline exampleAbsent (exampleRunner [])
        (NewMessage BallotMessage [2])).ran
      = [BallotCheckerFunc.CheckNodeRunnerHandleBallotIsWellformed] ∧
    (NodeRunner.ballotPipeline exampleAbsent (exampleRunner [])
        (NewMessage BallotMessage [2])).err
      = some (CheckerError.other ErrorBallotHasMessage) := by
  refine ⟨rfl, by decide, by decide, by decide⟩

/-- C14 (amended): in the default ballot pipeline, with the known-validator
stage as the specification describes it and any other stage bodies: if the
well-formedness stage fails, the run ends there with its error; if it
passes and the node key of the ballot then on the checker is not among the
validators, the run ends at the known-validator stage with a stop and the
checker as the first stage and the defer hooks left it.  In both cases the
receive stage is not invoked. -/
theorem unknown_validator_never_received {κ ς : Type} (x : Absent κ ς)
    (c : NodeRunnerHandleBallotChecker κ ς)
    (hstage : x.ballotFunc BallotCheckerFunc.CheckNodeRunnerHandleBallotNotFromKnownValidators
      = CheckNodeRunnerHandleBallotNotFromKnownValidators) :
    (∀ (err : CheckerError) (c1 : NodeRunnerHandleBallotChecker κ ς),
      x.ballotFunc BallotCheckerFunc.CheckNodeRunnerHandleBallotIsWellformed
          (x.ballotDeferFunc 0 c none) = (some err, c1) →
      (RunChecker x.ballotFunc x.ballotDeferFunc DefaultHandleBallotCheckerFuncs c).err
          = some err ∧
        (RunChecker x.ballotFunc x.ballotDeferFunc DefaultHandleBallotCheckerFuncs c).ran
          = [BallotCheckerFunc.CheckNodeRunnerHandleBallotIsWellformed] ∧
        BallotCheckerFunc.CheckNodeRunnerHandleBallotReceiveBallot ∉
          (RunChecker x.ballotFunc x.ballotDeferFunc DefaultHandleBallotCheckerFuncs c).ran) ∧
    (∀ c1 : NodeRunnerHandleBallotChecker κ ς,
      x.ballotFunc BallotCheckerFunc.CheckNodeRunnerHandleBallotIsWellformed
          (x.ballotDeferFunc 0 c none) = (none, c1) →
      (x.ballotDeferFunc 1 c1 none).Ballot.node_key ∉
          (x.ballotDeferFunc 1 c1 none).NodeRunner.validators →
      (RunChecker x.ballotFunc x.ballotDeferFunc DefaultHandleBallotCheckerFuncs c).err
          = some (CheckerError.stop "ballot from unknown validator") ∧
        (RunChecker x.ballotFunc x.ballotDeferFunc DefaultHandleBallotCheckerFuncs c).ran
          = [BallotCheckerFunc.CheckNodeRunnerHandleBallotIsWellformed,
             BallotCheckerFunc.CheckNodeRunnerHandleBallotNotFromKnownValidators] ∧
        (RunChecker x.ballotFunc x.ballotDeferFunc DefaultHandleBallotCheckerFuncs c).checker
          = x.ballotDeferFunc 1 c1 none ∧
        BallotCheckerFunc.CheckNodeRunnerHandleBallotReceiveBallot ∉
          (RunChecker x.ballotFunc x.ballotDeferFunc DefaultHandleBallotCheckerFuncs c).ran) := by
  constructor
  · intro err c1 h0
    have hrun : RunChecker x.ballotFunc x.ballotDeferFunc DefaultHandleBallotCheckerFuncs c
        = { err := some err, checker := c1,
            ran := [BallotCheckerFunc.CheckNodeRunnerHandleBallotIsWellformed] } := by
      simp only [RunChecker, DefaultHandleBallotCheckerFuncs, runCheckerFrom, h0]
    rw [hrun]
    exact ⟨rfl, rfl, by simp⟩
  · intro c1 h0 hunknown
    have h1 : x.ballotFunc BallotCheckerFunc.CheckNodeRunnerHandleBallotNotFromKnownValidators
        (x.ballotDeferFunc (0 + 1) c1 none)
        = (some (CheckerError.stop "ballot from unknown validator"),
            x.ballotDeferFunc 1 c1 none) := by
      rw [hstage]
      unfold CheckNodeRunnerHandleBallotNotFromKnownValidators
      have : (x.ballotDeferFunc 1 c1 none).NodeRunner.validators.contains
          (x.ballotDeferFunc 1 c1 none).Ballot.node_key = false := by
        simpa using hunknown
      rw [this]
      rfl
    have hrun : RunChecker x.ballotFunc x.ballotDeferFunc DefaultHandleBallotCheckerFuncs c
        = { err := some (CheckerError.stop "ballot from unknown validator"),
            checker := x.ballotDeferFunc 1 c1 none,
            ran := [BallotCheckerFunc.CheckNodeRunnerHandleBallotIsWellformed,
                    BallotCheckerFunc.CheckNodeRunnerHandleBallotNotFromKnownValidators] } := by
      simp only [RunChecker, DefaultHandleBallotCheckerFuncs, runCheckerFrom, h0, h1]
    rw [hrun]
    exact ⟨rfl, rfl, rfl, by simp⟩

/-- C14 (amended) at the well-formed `INIT` ballot of the unknown node `N9`:
the run ends at the known-validator stage with a stop, and no voting result
has been recorded. -/
theorem unknown_validator_never_received_witness :
    (RunChecker exampleAbsent.ballotFunc exampleAbsent.ballotDeferFunc
        DefaultHandleBallotCheckerFuncs
        (NodeRunner.newBallotChecker exampleAbsent (exampleRunner [])
          (NewMessage BallotMessage [1]))).err
      = some (CheckerError.stop "ballot from unknown validator") ∧
    (RunChecker exampleAbsent.ballotFunc exampleAbsent.ballotDeferFunc
        DefaultHandleBallotCheckerFuncs
        (NodeRunner.newBallotChecker exampleAbsent (exampleRunner [])
          (NewMessage BallotMessage [1]))).checker.NodeRunner.consensus = [] :=
  have h := (unknown_validator_never_received exampleAbsent
      (NodeRunner.newBallotChecker exampleAbsent (exampleRunner [])
        (NewMessage BallotMessage [1])) rfl).2 _ rfl (by decide)
  ⟨h.1, by rw [h.2.2.1]; rfl⟩

/-! ### C15: well-formed operations -/

/-- C15: a payment body whose amount is 0 is not well-formed, whatever its
target, the address parser and the network id; an operation with a positive
amount and a target the address parser accepts is well-formed. -/
theorem payment_well_formed (parseAddress : String → Option Err) (networkID : Bytes) :
    (∀ b : OperationBodyPayment, b.Amount = 0 →
      b.IsWellFormed parseAddress networkID ≠ none) ∧
    (∀ op : Operation, 0 < op.B.GetAmount → parseAddress op.B.TargetAddress = none →
      op.IsWellFormed parseAddress networkID = none) := by
  constructor
  · intro b hb
    unfold OperationBodyPayment.IsWellFormed
    cases hp : parseAddress b.Target with
    | some e => simp
    | none => simp [hb]
  · intro op hpos hparse
    unfold Operation.IsWellFormed
    cases hB : op.B with
    | payment b =>
      rw [hB] at hpos hparse
      simp only [OperationBody.GetAmount, OperationBody.TargetAddress] at hpos hparse
      have : ¬ b.Amount < 1 := by omega
      simp [OperationBodyPayment.IsWellFormed, hparse, this]
    | createAccount b =>
      rw [hB] at hpos hparse
      simp only [OperationBody.GetAmount, OperationBody.TargetAddress] at hpos hparse
      have : ¬ b.Amount < 1 := by omega
      simp [OperationBodyCreateAccount.IsWellFormed, hparse, this]

/-- C15 at the payment body of the test (`amount = 0`) and at a payment of
100 to a valid address. -/
theorem payment_well_formed_witness :
    OperationBodyPayment.IsWellFormed exampleParseAddress { Target := "GABC", Amount := 0 } []
      ≠ none ∧
    (examplePayment "GABC" 100).IsWellFormed exampleParseAddress [] = none :=
  ⟨(payment_well_formed exampleParseAddress []).1 { Target := "GABC", Amount := 0 } rfl,
   (payment_well_formed exampleParseAddress []).2 (examplePayment "GABC" 100)
     (by decide) (by decide)⟩

end Sebak
